import Mathlib

/-!
# Verification development for the incremental-storage fragments of `frameworks/base`

Three source files are covered:

* `core/jni/android_os_incremental_IncrementalManager.cpp` — the JNI predicate
  `nativeIsIncrementalPath`;
* `tools/stats_log_api_gen/java_writer.cpp` — the generator `write_java_methods`;
* `services/incremental/BinderIncrementalService.h` — the declarations of the
  incremental service, whose behaviour is described by the design document
  (storage registry, path resolver, bind-mount table, loading-status tracker).

Definitions come first, theorems afterwards.
-/

set_option autoImplicit false

/-! ## Part 1. `android_os_incremental_IncrementalManager.cpp` -/

namespace android

/-- JNI `jboolean`, an unsigned 8-bit integer. -/
abbrev jboolean := Nat

/-- JNI constant `JNI_FALSE`. -/
def JNI_FALSE : jboolean := 0

/-- JNI constant `JNI_TRUE`. -/
def JNI_TRUE : jboolean := 1

/-- The C++ conversion `(jboolean)b` of a `bool`: `true` becomes 1 and `false` becomes 0. -/
def jbooleanOfBool (b : Bool) : jboolean := if b then 1 else 0

/-- A `jstring` reference; `none` is the null reference. -/
abbrev jstring := Option String

/-- The helper `ScopedUtfChars`: it holds the characters of a `jstring`, or a null
pointer when the reference is null. -/
structure ScopedUtfChars where
  utf_chars : Option String

/-- Constructor `ScopedUtfChars(env, javaPath)`. -/
def ScopedUtfChars.ofJstring (javaPath : jstring) : ScopedUtfChars := ⟨javaPath⟩

/-- Accessor `c_str()`; `none` is the null pointer. -/
def ScopedUtfChars.c_str (s : ScopedUtfChars) : Option String := s.utf_chars

/-- `nativeIsIncrementalPath` (lines 29-34). The driver entry point `IncFs_IsIncFsPath`
is declared in `incfs_ndk.h`, outside these sources, and is taken as a parameter: a
function from the `const char*` argument to `bool`. -/
def nativeIsIncrementalPath (IncFs_IsIncFsPath : Option String → Bool)
    (javaPath : jstring) : jboolean :=
  let path := ScopedUtfChars.ofJstring javaPath
  jbooleanOfBool (IncFs_IsIncFsPath path.c_str)

end android

/-! ## Part 2. `java_writer.cpp` -/

namespace android.stats_log_api_gen

/-- The enumeration `java_type_t` with the constants that `java_writer.cpp` names:
nine in its `case` labels and `OBJECT`, `DOUBLE` in the comment of the `default` label. -/
inductive java_type_t where
  | JAVA_TYPE_ATTRIBUTION_CHAIN
  | JAVA_TYPE_BOOLEAN
  | JAVA_TYPE_INT
  | JAVA_TYPE_LONG
  | JAVA_TYPE_FLOAT
  | JAVA_TYPE_DOUBLE
  | JAVA_TYPE_STRING
  | JAVA_TYPE_ENUM
  | JAVA_TYPE_KEY_VALUE_PAIR
  | JAVA_TYPE_OBJECT
  | JAVA_TYPE_BYTE_ARRAY
  deriving DecidableEq, Repr

open java_type_t

/-- One field of an atom declaration, with the two members the writer reads. -/
structure AtomField where
  name : String
  javaType : java_type_t
  deriving DecidableEq, Repr

/-- An atom declaration, reduced to its field vector. -/
structure AtomDecl where
  fields : List AtomField
  deriving DecidableEq, Repr

/-- What `java_writer.cpp` uses from `utils.h` without defining it: the constant
`DEFAULT_MODULE_NAME` and the functions `signature_needed_for_module` and
`java_type_name`. They are parameters of the embedding. -/
structure Utils where
  DEFAULT_MODULE_NAME : String
  signature_needed_for_module : List String → String → Bool
  java_type_name : java_type_t → String

/-- How a piece of code leaves: it falls through to the next statement, it executes
`return 1`, or it has no defined behaviour (`front()` of an empty vector). -/
inductive Flow where
  | next
  | ret1
  | undef
  deriving DecidableEq, Repr

/-- The effect of a piece of code: the strings it printed to `out` (one per `fprintf`
call), those it printed to `stderr`, and how it leaves. -/
structure Emit where
  out : List String
  err : List String
  flow : Flow
  deriving DecidableEq, Repr

namespace Emit

/-- The empty statement (also `continue` at the top of a loop body). -/
def skip : Emit := ⟨[], [], Flow.next⟩

/-- One call `fprintf(out, ...)` producing the string `s`. -/
def print (s : String) : Emit := ⟨[s], [], Flow.next⟩

/-- One call `fprintf(stderr, ...)` producing the string `s`. -/
def eprint (s : String) : Emit := ⟨[], [s], Flow.next⟩

/-- The statement `return 1`. -/
def return1 : Emit := ⟨[], [], Flow.ret1⟩

/-- A statement without defined behaviour. -/
def undefined : Emit := ⟨[], [], Flow.undef⟩

/-- Sequential composition `a; b`: `b` runs only if `a` falls through. -/
def seq (a b : Emit) : Emit :=
  match a.flow with
  | Flow.next => ⟨a.out ++ b.out, a.err ++ b.err, b.flow⟩
  | _ => a

/-- A block of statements. -/
def block : List Emit → Emit
  | [] => skip
  | a :: rest => seq a (block rest)

end Emit

/-- The loop `for (arg = signature.begin(); arg != signature.end(); arg++) { body; argIndex++; }`
started with the given value of `argIndex`. -/
def forArgs (body : java_type_t → Nat → Emit) : List java_type_t → Nat → Emit
  | [], _ => Emit.skip
  | arg :: rest, argIndex => Emit.seq (body arg argIndex) (forArgs body rest (argIndex + 1))

/-- Body of the loop of lines 67-80, which prints the parameters of the method. -/
def printParam (U : Utils) (attributionDecl : AtomDecl) (arg : java_type_t)
    (argIndex : Nat) : Emit :=
  if arg = JAVA_TYPE_ATTRIBUTION_CHAIN then
    Emit.block (attributionDecl.fields.map fun chainField =>
      Emit.print (", " ++ U.java_type_name chainField.javaType ++ "[] " ++ chainField.name))
  else if arg = JAVA_TYPE_KEY_VALUE_PAIR then
    Emit.print ", SparseArray<Object> valueMap"
  else
    Emit.print (", " ++ U.java_type_name arg ++ " arg" ++ toString argIndex)

/-- The two names `fields.front().name` and `fields.back().name`; `none` when the field
vector is empty, where `front()` and `back()` have no defined behaviour. -/
def chainNames (attributionDecl : AtomDecl) : Option (String × String) :=
  match attributionDecl.fields.head?, attributionDecl.fields.getLast? with
  | some uid, some tag => some (uid.name, tag.name)
  | _, _ => none

/-- The lines printed for `case JAVA_TYPE_KEY_VALUE_PAIR` (lines 131-179). -/
def keyValuePairLines (indent : String) : List String :=
  [ "\n",
    indent ++ "        // Write KeyValuePairs.\n",
    indent ++ "        final int count = valueMap.size();\n",
    indent ++ "        final SparseIntArray intMap = new SparseIntArray();\n",
    indent ++ "        final SparseLongArray longMap = new SparseLongArray();\n",
    indent ++ "        final SparseArray<String> stringMap = new SparseArray<>();\n",
    indent ++ "        final SparseArray<Float> floatMap = new SparseArray<>();\n",
    indent ++ "        for (int i = 0; i < count; i++) \x7b\n",
    indent ++ "            final int key = valueMap.keyAt(i);\n",
    indent ++ "            final Object value = valueMap.valueAt(i);\n",
    indent ++ "            if (value instanceof Integer) \x7b\n",
    indent ++ "                intMap.put(key, (Integer) value);\n",
    indent ++ "            \x7d else if (value instanceof Long) \x7b\n",
    indent ++ "                longMap.put(key, (Long) value);\n",
    indent ++ "            \x7d else if (value instanceof String) \x7b\n",
    indent ++ "                stringMap.put(key, (String) value);\n",
    indent ++ "            \x7d else if (value instanceof Float) \x7b\n",
    indent ++ "                floatMap.put(key, (Float) value);\n",
    indent ++ "            \x7d\n",
    indent ++ "        \x7d\n",
    indent ++ "        builder.writeKeyValuePairs(intMap, longMap, stringMap, floatMap);\n" ]

/-- Body of the loop of lines 99-186: the `switch` that writes one argument into the
builder. -/
def writeArg (indent : String) (attributionDecl : AtomDecl) (arg : java_type_t)
    (argIndex : Nat) : Emit :=
  match arg with
  | JAVA_TYPE_BOOLEAN =>
      Emit.print (indent ++ "        builder.writeBoolean(arg" ++ toString argIndex ++ ");\n")
  | JAVA_TYPE_INT =>
      Emit.print (indent ++ "        builder.writeInt(arg" ++ toString argIndex ++ ");\n")
  | JAVA_TYPE_ENUM =>
      Emit.print (indent ++ "        builder.writeInt(arg" ++ toString argIndex ++ ");\n")
  | JAVA_TYPE_FLOAT =>
      Emit.print (indent ++ "        builder.writeFloat(arg" ++ toString argIndex ++ ");\n")
  | JAVA_TYPE_LONG =>
      Emit.print (indent ++ "        builder.writeLong(arg" ++ toString argIndex ++ ");\n")
  | JAVA_TYPE_STRING =>
      Emit.print (indent ++ "        builder.writeString(arg" ++ toString argIndex ++ ");\n")
  | JAVA_TYPE_BYTE_ARRAY =>
      Emit.print (indent ++ "        builder.writeByteArray(arg" ++ toString argIndex ++ ");\n")
  | JAVA_TYPE_ATTRIBUTION_CHAIN =>
      match chainNames attributionDecl with
      | some (uidName, tagName) =>
          Emit.print (indent ++ "        builder.writeAttributionChain(" ++ uidName ++ ", "
            ++ tagName ++ ");\n")
      | none => Emit.undefined
  | JAVA_TYPE_KEY_VALUE_PAIR =>
      Emit.block ((keyValuePairLines indent).map Emit.print)
  | _ =>
      Emit.seq (Emit.eprint "Encountered unsupported type.") Emit.return1

/-- Body of the loop of lines 196-210, which prints the arguments of `QLogger.write`. -/
def writeQArg (attributionDecl : AtomDecl) (arg : java_type_t) (argIndex : Nat) : Emit :=
  if arg = JAVA_TYPE_ATTRIBUTION_CHAIN then
    match chainNames attributionDecl with
    | some (uidName, tagName) => Emit.print (", " ++ uidName ++ ", " ++ tagName)
    | none => Emit.undefined
  else if arg = JAVA_TYPE_KEY_VALUE_PAIR then
    Emit.seq (Emit.eprint "Module logging does not yet support key value pair.\n")
      Emit.return1
  else
    Emit.print (", arg" ++ toString argIndex)

/-- One iteration of the loop over `signatures_to_modules` (lines 55-216), for the map
entry `entry = (signature, modules)`. -/
def writeMethod (U : Utils) (attributionDecl : AtomDecl) (moduleName : String)
    (entry : List java_type_t × List String) : Emit :=
  if !U.signature_needed_for_module entry.2 moduleName then
    Emit.skip
  else
    let signature := entry.1
    let indent := if U.DEFAULT_MODULE_NAME ≠ moduleName then "    " else ""
    Emit.block
      [ if U.DEFAULT_MODULE_NAME = moduleName then Emit.print "    /** @hide */\n"
        else Emit.skip,
        Emit.print "    public static void write(int code",
        forArgs (printParam U attributionDecl) signature 1,
        Emit.print ") \x7b\n",
        if U.DEFAULT_MODULE_NAME ≠ moduleName then
          Emit.print "        if (Build.VERSION.SDK_INT >= Build.VERSION_CODES.R) \x7b\n"
        else Emit.skip,
        Emit.print (indent ++ "        final StatsEvent.Builder builder = StatsEvent.newBuilder();\n"),
        Emit.print (indent ++ "        builder.setAtomId(code);\n"),
        forArgs (writeArg indent attributionDecl) signature 1,
        Emit.print "\n",
        Emit.print (indent ++ "        StatsLog.write(builder.build());\n"),
        if U.DEFAULT_MODULE_NAME ≠ moduleName then
          Emit.block
            [ Emit.print "        \x7d else \x7b\n",
              Emit.print "            QLogger.write(code",
              forArgs (writeQArg attributionDecl) signature 1,
              Emit.print ");\n",
              Emit.print "        \x7d\n" ]
        else Emit.skip,
        Emit.print "    \x7d\n",
        Emit.print "\n" ]

/-- The loop over the entries of `signatures_to_modules`, in iteration order. -/
def forSignatures (body : List java_type_t × List String → Emit) :
    List (List java_type_t × List String) → Emit
  | [] => Emit.skip
  | entry :: rest => Emit.seq (body entry) (forSignatures body rest)

/-- What a call of `write_java_methods` leaves behind: the returned `int` and the
strings printed to `out` and to `stderr`. -/
structure Written where
  ret : Int
  out : List String
  err : List String
  deriving DecidableEq, Repr

/-- `write_java_methods` (lines 47-220). The map `signatures_to_modules` is the list of
its entries in iteration order. The result is `none` when the run has no defined
behaviour. -/
def write_java_methods (U : Utils) (signatures_to_modules : List (List java_type_t × List String))
    (attributionDecl : AtomDecl) (moduleName : String) : Option Written :=
  let run := forSignatures (writeMethod U attributionDecl moduleName) signatures_to_modules
  match run.flow with
  | Flow.next => some ⟨0, run.out, run.err⟩
  | Flow.ret1 => some ⟨1, run.out, run.err⟩
  | Flow.undef => none

/-- The text of the file written to `out`: the printed strings, concatenated. -/
def Written.text (w : Written) : String := String.join w.out

/-! ### The shape of an emitted method, as the comments of the generator state it -/

/-- The guard that opens the branch for Android R and later. -/
def sdkGuardLine : String :=
  "        if (Build.VERSION.SDK_INT >= Build.VERSION_CODES.R) \x7b\n"

/-- The start of the call of the Q-schema logger. -/
def qLoggerCall : String := "            QLogger.write(code"

/-- The javadoc line that hides a method. -/
def hideLine : String := "    /** @hide */\n"

/-- The start of the declaration of a write method. -/
def methodStart : String := "    public static void write(int code"

/-- The arguments of the `QLogger.write` call as the comment block states them: in
signature order, `argN` for an ordinary argument at the 1-based position `N`, and the
first and the last attribution field name for an attribution chain. -/
def qLoggerArgsSpec (first last : String) (signature : List java_type_t) : List String :=
  (signature.enumFrom 1).map fun p =>
    if p.2 = JAVA_TYPE_ATTRIBUTION_CHAIN then ", " ++ first ++ ", " ++ last
    else ", arg" ++ toString p.1

/-- The stated shape of a method for a module other than the default one: the
`StatsEvent.Builder` body inside the SDK guard, and an `else` branch that calls
`QLogger.write`. The parameter list and the builder statements are those that
`printParam` and `writeArg` print. -/
def guardedMethodSpec (U : Utils) (attributionDecl : AtomDecl) (first last : String)
    (signature : List java_type_t) : List String :=
  [methodStart] ++ (forArgs (printParam U attributionDecl) signature 1).out ++
  [") \x7b\n", sdkGuardLine,
   "    " ++ "        final StatsEvent.Builder builder = StatsEvent.newBuilder();\n",
   "    " ++ "        builder.setAtomId(code);\n"] ++
  (forArgs (writeArg "    " attributionDecl) signature 1).out ++
  ["\n", "    " ++ "        StatsLog.write(builder.build());\n",
   "        \x7d else \x7b\n", qLoggerCall] ++
  qLoggerArgsSpec first last signature ++
  [");\n", "        \x7d\n", "    \x7d\n", "\n"]

/-- The stated shape of a method for the default module: the hiding javadoc line, the
declaration, and the `StatsEvent.Builder` body without guard and without `else` branch. -/
def hiddenMethodSpec (U : Utils) (attributionDecl : AtomDecl)
    (signature : List java_type_t) : List String :=
  [hideLine, methodStart] ++ (forArgs (printParam U attributionDecl) signature 1).out ++
  [") \x7b\n",
   "" ++ "        final StatsEvent.Builder builder = StatsEvent.newBuilder();\n",
   "" ++ "        builder.setAtomId(code);\n"] ++
  (forArgs (writeArg "" attributionDecl) signature 1).out ++
  ["\n", "" ++ "        StatsLog.write(builder.build());\n", "    \x7d\n", "\n"]

/-- Every occurrence of the string `b` in the list directly follows the string `a`. -/
def PrecededBy (a b : String) (l : List String) : Prop :=
  ∀ before after, l = before ++ b :: after → ∃ before0, before = before0 ++ [a]

/-- A string that is none of the three marker lines `methodStart`, `sdkGuardLine` and
`qLoggerCall`. -/
def Unmarked (s : String) : Prop := s ≠ methodStart ∧ s ≠ sdkGuardLine ∧ s ≠ qLoggerCall

/-- What the documentation states of everything printed for the default module: no SDK
guard, no call of the Q-schema logger, and each method start directly after the hiding
javadoc line. -/
def PlainOutput (l : List String) : Prop :=
  sdkGuardLine ∉ l ∧ qLoggerCall ∉ l ∧ PrecededBy hideLine methodStart l

/-! ### Sample inputs -/

/-- A sample instance of the declarations of `utils.h`: the default module is named
`DEFAULT`, a signature is needed for the default module and for the modules of its set,
and every type is spelled `int`. -/
def sampleUtils : Utils :=
  ⟨"DEFAULT", fun modules moduleName => moduleName == "DEFAULT" || modules.contains moduleName,
    fun _ => "int"⟩

/-- A sample attribution declaration with the fields `uid` and `tag`. -/
def sampleDecl : AtomDecl := ⟨[⟨"uid", JAVA_TYPE_INT⟩, ⟨"tag", JAVA_TYPE_STRING⟩]⟩

/-- A sample signature map with one signature, used by the module `m`. -/
def sampleSignatures : List (List java_type_t × List String) :=
  [([JAVA_TYPE_INT, JAVA_TYPE_ATTRIBUTION_CHAIN], ["m"])]

end android.stats_log_api_gen

/-! ## Part 3. `BinderIncrementalService.h`

The header declares the operations of the incremental service; their bodies, and the
engine `android::incremental::IncrementalService` behind the member `mImpl`, are not
among these sources. The engine is therefore modelled from the design document, one
definition per component and operation described there. The data-loader sessions, the
operations `openStorage`, `makeDirectories`, `makeFileFromRange`, `makeLink`,
`startLoading` and the diagnostic dump are left out: the document gives them no effect
on the mount table or on the loading-status tracker, and it leaves open what metadata a
file made from a range or a link carries. -/

namespace android.os.incremental

/-- Modelled from the spec: the error kinds of section 7, which are the failure results
of every operation of the absent service implementation. -/
inductive Error where
  | NotFound
  | AlreadyExists
  | AlreadyBound
  | InvalidPath
  | InvalidRange
  | HasDependents
  | DataLoaderNotReady
  | Invalidated
  | IOFailure
  deriving DecidableEq, Repr

/-- Storage identifiers are the `int32_t storageId` of the header. -/
abbrev StorageId := Int

/-- Modelled from the spec: a storage of the absent registry (section 3): identifier,
root path, creation mode and the optional base storage of a linked storage. -/
structure Storage where
  id : StorageId
  root : String
  createMode : Int
  base : Option StorageId
  deriving DecidableEq, Repr

/-- Modelled from the spec: the bind types of the absent bind-mount table, the closed
set of section 3. -/
inductive BindType where
  | temporary
  | permanent
  deriving DecidableEq, Repr

/-- Modelled from the spec: a record of the absent bind-mount table (section 3), mapping
a path of a storage to the target path it occludes. -/
structure BindMount where
  storageId : StorageId
  source : String
  targetFullPath : String
  bindType : BindType
  deriving DecidableEq, Repr

/-- Modelled from the spec: the payload of an entry of a storage (section 3); a file
carries its declared size and its metadata blob, a directory carries nothing. Links
are not modelled. -/
inductive EntryKind where
  | file (size : Int) (metadata : List (Fin 256))
  | directory
  deriving DecidableEq, Repr

/-- Modelled from the spec: an entry materialised inside a storage by the absent
implementation of `makeFile` and `makeDirectory`, under its resolved path. -/
structure Entry where
  storageId : StorageId
  path : String
  kind : EntryKind
  deriving DecidableEq, Repr

/-- A half-open byte range `[lo, hi)`. -/
abbrev Interval := Int × Int

/-- The key of a file in the tracker: its storage and its resolved path. -/
abbrev FileKey := StorageId × String

/-! ### StorageRegistry (section 4.1) -/

/-- Modelled from the spec: the absent `StorageRegistry`, a strictly increasing
identifier counter and the live storages. -/
structure StorageRegistry where
  counter : Int
  live : List Storage
  deriving DecidableEq, Repr

namespace StorageRegistry

/-- Modelled from the spec: the registry of the absent service at its start. -/
def empty : StorageRegistry := ⟨0, []⟩

/-- Modelled from the spec: `allocate()` of the absent registry; the counter only grows,
so no identifier is handed out twice. -/
def allocate (r : StorageRegistry) : StorageId × StorageRegistry :=
  (r.counter + 1, { r with counter := r.counter + 1 })

/-- Modelled from the spec: `register(id, root, kind)` of the absent registry. -/
def register (r : StorageRegistry) (st : Storage) : StorageRegistry :=
  { r with live := r.live ++ [st] }

/-- Modelled from the spec: `lookup(id)` of the absent registry; `none` stands for
`NotFound`. -/
def lookup (r : StorageRegistry) (id : StorageId) : Option Storage :=
  r.live.find? fun st => decide (st.id = id)

/-- Modelled from the spec: `remove(id)` of the absent registry. It fails with `NotFound`
for an unknown identifier and with `HasDependents` while a bind mount or a linked
storage still references the storage. -/
def remove (r : StorageRegistry) (id : StorageId) (mounts : List BindMount) :
    Except Error StorageRegistry :=
  match r.lookup id with
  | none => Except.error Error.NotFound
  | some _ =>
    if mounts.any (fun m => decide (m.storageId = id)) ||
        r.live.any (fun st => decide (st.base = some id)) then
      Except.error Error.HasDependents
    else
      Except.ok { r with live := r.live.filter fun st => decide (st.id ≠ id) }

end StorageRegistry

/-! ### PathResolver (section 4.2) -/

namespace PathResolver

/-- Modelled from the spec: the split of a relative path at its separators, used by the
absent `PathResolver`. -/
def splitPath : List Char → List (List Char)
  | [] => [[]]
  | c :: cs =>
    if c = '/' then [] :: splitPath cs
    else
      match splitPath cs with
      | [] => [[c]]
      | seg :: segs => (c :: seg) :: segs

/-- Modelled from the spec: the segments of a normalised path joined below a root; part
of the absent `PathResolver`. -/
def joinBelow (root : List Char) : List (List Char) → List Char
  | [] => root
  | seg :: segs => joinBelow (root ++ '/' :: seg) segs

/-- Modelled from the spec: `resolve(storageId, relativePath)` of the absent
`PathResolver`. The storage is looked up in the registry; a path with an absolute
component or a traversal segment `..` is rejected with `InvalidPath`; separators are
normalised by dropping empty segments; the result lies below the root of the storage. -/
def resolve (r : StorageRegistry) (storageId : StorageId) (relativePath : String) :
    Except Error String :=
  match r.lookup storageId with
  | none => Except.error Error.NotFound
  | some st =>
    let segments := splitPath relativePath.data
    if relativePath.data.head? = some '/' then Except.error Error.InvalidPath
    else if segments.contains ['.', '.'] then Except.error Error.InvalidPath
    else Except.ok (String.mk (joinBelow st.root.data (segments.filter fun seg => !seg.isEmpty)))

end PathResolver

/-! ### BindMountTable (section 4.3) -/

namespace BindMountTable

/-- Modelled from the spec: whether a mount of the absent table already occludes the
target path. -/
def occupied (mounts : List BindMount) (targetFullPath : String) : Bool :=
  mounts.any fun m => decide (m.targetFullPath = targetFullPath)

/-- Modelled from the spec: `bind` of the absent `BindMountTable`. It first resolves the
source, then confirms that no mount occludes the target, then performs the underlying
mount operation (whose outcome is `osOk`) and records the mapping; on any failure no
mapping is recorded. -/
def bind (r : StorageRegistry) (mounts : List BindMount) (storageId : StorageId)
    (pathUnderStorage targetFullPath : String) (bindType : BindType) (osOk : Bool) :
    Except Error (List BindMount) :=
  match PathResolver.resolve r storageId pathUnderStorage with
  | Except.error e => Except.error e
  | Except.ok source =>
    if occupied mounts targetFullPath then Except.error Error.AlreadyBound
    else if !osOk then Except.error Error.IOFailure
    else Except.ok (mounts ++ [⟨storageId, source, targetFullPath, bindType⟩])

/-- Modelled from the spec: whether the absent table holds a mount of the storage at the
target. -/
def holds (mounts : List BindMount) (storageId : StorageId) (targetFullPath : String) : Bool :=
  mounts.any fun m => decide (m.storageId = storageId ∧ m.targetFullPath = targetFullPath)

/-- Modelled from the spec: `unbind` of the absent `BindMountTable`. It fails with
`NotFound` without such a mount; it performs the underlying unmount (whose outcome is
`osOk`) before it removes the record, and it keeps the record when the unmount fails. -/
def unbind (mounts : List BindMount) (storageId : StorageId) (targetFullPath : String)
    (osOk : Bool) : Except Error (List BindMount) :=
  if !holds mounts storageId targetFullPath then Except.error Error.NotFound
  else if !osOk then Except.error Error.IOFailure
  else Except.ok (mounts.filter fun m =>
    decide (¬(m.storageId = storageId ∧ m.targetFullPath = targetFullPath)))

/-- Modelled from the spec: the unwinding loop of the absent teardown. The mounts in
`todo` are unbound one after the other; a failure is noted and the loop continues; the
first error met is the one reported. Unmounting fails for the targets in `unmountFails`. -/
def unwind (storageId : StorageId) (unmountFails : List String) :
    List BindMount → List BindMount → List BindMount × Option Error
  | [], mounts => (mounts, none)
  | m :: todo, mounts =>
    match unbind mounts storageId m.targetFullPath (!unmountFails.contains m.targetFullPath) with
    | Except.ok mounts1 => unwind storageId unmountFails todo mounts1
    | Except.error e => ((unwind storageId unmountFails todo mounts).1, some e)

/-- Modelled from the spec: the teardown of the mounts of a storage by the absent table,
in the reverse of the order of their creation. -/
def teardown (mounts : List BindMount) (storageId : StorageId) (unmountFails : List String) :
    List BindMount × Option Error :=
  unwind storageId unmountFails
    (mounts.filter fun m => decide (m.storageId = storageId)).reverse mounts

end BindMountTable

/-! ### LoadingStatusTracker (section 4.4) -/

namespace LoadingStatusTracker

/-- Modelled from the spec: the merge of a non-empty range into the sorted list of
disjoint intervals of a file, kept by the absent `LoadingStatusTracker`; a range that
overlaps or touches a stored interval is joined with it. -/
def insertRange (lo hi : Int) : List Interval → List Interval
  | [] => [(lo, hi)]
  | (a, b) :: rest =>
    if hi < a then (lo, hi) :: (a, b) :: rest
    else if b < lo then (a, b) :: insertRange lo hi rest
    else insertRange (min lo a) (max hi b) rest

/-- Modelled from the spec: whether the range `[lo, hi)` is covered by one or more of
the stored intervals, walked in their order; the query of the absent tracker. A range
without bytes is covered, as section 8 has the answer true once every byte of the range
has been reported filled. -/
def covered (lo hi : Int) : List Interval → Bool
  | [] => decide (hi ≤ lo)
  | (a, b) :: rest =>
    if hi ≤ lo then true
    else if a ≤ lo ∧ lo < b then covered b hi rest
    else covered lo hi rest

end LoadingStatusTracker

/-- Modelled from the spec: the absent `LoadingStatusTracker`, which keeps for each file
the sorted list of the disjoint byte ranges already filled. -/
structure LoadingStatusTracker where
  files : List (FileKey × List Interval)
  deriving DecidableEq, Repr

namespace LoadingStatusTracker

/-- Modelled from the spec: the intervals the absent tracker stores for a file. -/
def ranges (t : LoadingStatusTracker) (key : FileKey) : List Interval :=
  match t.files.find? fun e => decide (e.1 = key) with
  | some e => e.2
  | none => []

/-- Modelled from the spec: the replacement of the interval list of one file in the
absent tracker. -/
def setRanges (key : FileKey) (rs : List Interval) :
    List (FileKey × List Interval) → List (FileKey × List Interval)
  | [] => [(key, rs)]
  | e :: rest => if e.1 = key then (key, rs) :: rest else e :: setRanges key rs rest

/-- Modelled from the spec: `markFilled(storageId, fileId, range)` of the absent tracker:
the range is merged into the interval set of the file. A range without bytes changes
nothing. -/
def markFilled (t : LoadingStatusTracker) (key : FileKey) (lo hi : Int) :
    LoadingStatusTracker :=
  if lo < hi then ⟨setRanges key (insertRange lo hi (t.ranges key)) t.files⟩ else t

/-- Modelled from the spec: `isRangeLoaded` of the absent tracker: true only if the
whole queried range is covered by stored intervals. -/
def isRangeLoaded (t : LoadingStatusTracker) (key : FileKey) (lo hi : Int) : Bool :=
  covered lo hi (t.ranges key)

end LoadingStatusTracker

/-! ### The service -/

/-- Modelled from the spec: the state of the absent `IncrementalService` behind `mImpl`:
the registry, the bind-mount table in the order of creation, the entries of the
storages and the loading-status tracker. -/
structure IncrementalService where
  registry : StorageRegistry
  mounts : List BindMount
  entries : List Entry
  tracker : LoadingStatusTracker
  deriving DecidableEq, Repr

namespace BinderIncrementalService

/-- Modelled from the spec: the state behind `mImpl` of the service that the absent body
of `start()` constructs: nothing registered, mounted, materialised or filled. -/
def start : IncrementalService := ⟨StorageRegistry.empty, [], [], ⟨[]⟩⟩

/-- Modelled from the spec: the absent body of `createStorage` (without data-loader
parameters): duplicate creation on a root in use fails with `AlreadyExists`, a failure
of the backing filesystem (`osOk` false) with `IOFailure`; otherwise a fresh identifier
is allocated and registered, and returned. -/
def createStorage (s : IncrementalService) (path : String) (createMode : Int) (osOk : Bool) :
    Except Error (StorageId × IncrementalService) :=
  if s.registry.live.any (fun st => decide (st.root = path)) then
    Except.error Error.AlreadyExists
  else if !osOk then Except.error Error.IOFailure
  else
    let (id, r) := s.registry.allocate
    Except.ok (id, { s with registry := r.register ⟨id, path, createMode, none⟩ })

/-- Modelled from the spec: the absent body of `createLinkedStorage` (section 4.6): it
fails with `NotFound` when the base does not resolve, and allocates no identifier then;
otherwise it creates a storage whose base is `otherStorageId`. -/
def createLinkedStorage (s : IncrementalService) (path : String) (otherStorageId : StorageId)
    (createMode : Int) (osOk : Bool) : Except Error (StorageId × IncrementalService) :=
  match s.registry.lookup otherStorageId with
  | none => Except.error Error.NotFound
  | some _ =>
    if s.registry.live.any (fun st => decide (st.root = path)) then
      Except.error Error.AlreadyExists
    else if !osOk then Except.error Error.IOFailure
    else
      let (id, r) := s.registry.allocate
      Except.ok (id, { s with registry := r.register ⟨id, path, createMode, some otherStorageId⟩ })

/-- Modelled from the spec: the absent body of `makeBindMount`, which is `bind` of the
bind-mount table (section 4.3). The mount identifier it returns is not modelled. -/
def makeBindMount (s : IncrementalService) (storageId : StorageId)
    (pathUnderStorage targetFullPath : String) (bindType : BindType) (osOk : Bool) :
    Except Error IncrementalService :=
  match BindMountTable.bind s.registry s.mounts storageId pathUnderStorage targetFullPath
      bindType osOk with
  | Except.error e => Except.error e
  | Except.ok mounts => Except.ok { s with mounts := mounts }

/-- Modelled from the spec: the absent body of `deleteBindMount`, which is `unbind` of
the bind-mount table (section 4.3). -/
def deleteBindMount (s : IncrementalService) (storageId : StorageId) (targetFullPath : String)
    (osOk : Bool) : Except Error IncrementalService :=
  match BindMountTable.unbind s.mounts storageId targetFullPath osOk with
  | Except.error e => Except.error e
  | Except.ok mounts => Except.ok { s with mounts := mounts }

/-- Modelled from the spec: the absent body of `deleteStorage` (sections 4.6 and 7): the
mounts of the storage are unwound, every step is attempted, the first error is the one
reported, and the storage leaves the registry unless a mount or a linked storage still
references it. The state changes even when an error is reported. -/
def deleteStorage (s : IncrementalService) (storageId : StorageId)
    (unmountFails : List String) : IncrementalService × Except Error Unit :=
  match s.registry.lookup storageId with
  | none => (s, Except.error Error.NotFound)
  | some _ =>
    let unwound := BindMountTable.teardown s.mounts storageId unmountFails
    match s.registry.remove storageId unwound.1 with
    | Except.error e =>
      ({ s with mounts := unwound.1 }, Except.error (unwound.2.getD e))
    | Except.ok r =>
      ({ s with registry := r, mounts := unwound.1,
                entries := s.entries.filter fun en => decide (en.storageId ≠ storageId) },
        match unwound.2 with
        | none => Except.ok ()
        | some e => Except.error e)

/-- Modelled from the spec: the absent body of `onInvalidStorage` (section 6), which
forces the storage through the teardown path of `deleteStorage`. -/
def onInvalidStorage (s : IncrementalService) (mountId : StorageId)
    (unmountFails : List String) : IncrementalService :=
  (deleteStorage s mountId unmountFails).1

/-- Modelled from the spec: the absent body of `onSystemReady` (section 6), which
re-applies the persisted permanent bind mounts; each is bound again through
`makeBindMount`, and one that cannot be bound is passed over. The persisted mounts and
the outcomes of the underlying mount operations come with the notification. -/
def onSystemReady (s : IncrementalService) :
    List (StorageId × String × String × Bool) → IncrementalService
  | [] => s
  | (storageId, pathUnderStorage, targetFullPath, osOk) :: rest =>
    match makeBindMount s storageId pathUnderStorage targetFullPath BindType.permanent osOk with
    | Except.ok s1 => onSystemReady s1 rest
    | Except.error _ => onSystemReady s rest

/-- Modelled from the spec: whether the absent entry table holds an entry of the storage
at the resolved path. -/
def entryAt (s : IncrementalService) (storageId : StorageId) (path : String) : Option Entry :=
  s.entries.find? fun en => decide (en.storageId = storageId ∧ en.path = path)

/-- Modelled from the spec: the absent body of `makeDirectory`: the arguments are
validated first (`NotFound`, `InvalidPath`, `AlreadyExists`), then the directory is made
on the backing filesystem (`IOFailure` when `osOk` is false) and recorded. -/
def makeDirectory (s : IncrementalService) (storageId : StorageId) (pathUnderStorage : String)
    (osOk : Bool) : Except Error IncrementalService :=
  match PathResolver.resolve s.registry storageId pathUnderStorage with
  | Except.error e => Except.error e
  | Except.ok path =>
    match entryAt s storageId path with
    | some _ => Except.error Error.AlreadyExists
    | none =>
      if !osOk then Except.error Error.IOFailure
      else Except.ok { s with entries := s.entries ++ [⟨storageId, path, EntryKind.directory⟩] }

/-- Modelled from the spec: the absent body of `makeFile`: the arguments are validated
first (`NotFound`, `InvalidPath`, `AlreadyExists`), then the file is made on the backing
filesystem (`IOFailure` when `osOk` is false) and recorded with its declared size and
its metadata blob. -/
def makeFile (s : IncrementalService) (storageId : StorageId) (pathUnderStorage : String)
    (size : Int) (metadata : List (Fin 256)) (osOk : Bool) : Except Error IncrementalService :=
  match PathResolver.resolve s.registry storageId pathUnderStorage with
  | Except.error e => Except.error e
  | Except.ok path =>
    match entryAt s storageId path with
    | some _ => Except.error Error.AlreadyExists
    | none =>
      if !osOk then Except.error Error.IOFailure
      else Except.ok
        { s with entries := s.entries ++ [⟨storageId, path, EntryKind.file size metadata⟩] }

/-- Modelled from the spec: the absent body of `unlink`: it removes exactly one entry and
fails with `NotFound` when there is none at the path. -/
def unlink (s : IncrementalService) (storageId : StorageId) (pathUnderStorage : String)
    (osOk : Bool) : Except Error IncrementalService :=
  match PathResolver.resolve s.registry storageId pathUnderStorage with
  | Except.error e => Except.error e
  | Except.ok path =>
    match entryAt s storageId path with
    | none => Except.error Error.NotFound
    | some _ =>
      if !osOk then Except.error Error.IOFailure
      else
        Except.ok
          { s with
            entries := s.entries.filter
              (fun en => decide (¬(en.storageId = storageId ∧ en.path = path))) }

/-- Modelled from the spec: the absent body of `getFileMetadata`: the metadata blob that
was supplied when the file was made; a directory has no payload. -/
def getFileMetadata (s : IncrementalService) (storageId : StorageId) (relativePath : String) :
    Except Error (List (Fin 256)) :=
  match PathResolver.resolve s.registry storageId relativePath with
  | Except.error e => Except.error e
  | Except.ok path =>
    match entryAt s storageId path with
    | none => Except.error Error.NotFound
    | some en =>
      match en.kind with
      | EntryKind.file _ metadata => Except.ok metadata
      | EntryKind.directory => Except.ok []

/-- Modelled from the spec: the content-fill notification of the backing filesystem,
absent from the sources: `markFilled` of the tracker for the file `fileId` (its resolved
path) of the storage. -/
def markFilled (s : IncrementalService) (storageId : StorageId) (fileId : String)
    (lo hi : Int) : IncrementalService :=
  { s with tracker := s.tracker.markFilled (storageId, fileId) lo hi }

/-- Modelled from the spec: the absent body of `isFileRangeLoaded`: the storage and the
path are resolved and the entry is looked up (`NotFound`, `InvalidPath`), then the
tracker answers. -/
def isFileRangeLoaded (s : IncrementalService) (storageId : StorageId) (relativePath : String)
    (start end_ : Int) : Except Error Bool :=
  match PathResolver.resolve s.registry storageId relativePath with
  | Except.error e => Except.error e
  | Except.ok path =>
    match entryAt s storageId path with
    | none => Except.error Error.NotFound
    | some _ => Except.ok (s.tracker.isRangeLoaded (storageId, path) start end_)

end BinderIncrementalService

/-- Modelled from the spec: the calls and notifications that the absent service
receives, each with the outcome of the operations of the backing system it triggers. -/
inductive Action where
  | createStorage (path : String) (createMode : Int) (osOk : Bool)
  | createLinkedStorage (path : String) (otherStorageId : StorageId) (createMode : Int)
      (osOk : Bool)
  | makeBindMount (storageId : StorageId) (pathUnderStorage targetFullPath : String)
      (bindType : BindType) (osOk : Bool)
  | deleteBindMount (storageId : StorageId) (targetFullPath : String) (osOk : Bool)
  | deleteStorage (storageId : StorageId) (unmountFails : List String)
  | onInvalidStorage (mountId : StorageId) (unmountFails : List String)
  | onSystemReady (persisted : List (StorageId × String × String × Bool))
  | makeDirectory (storageId : StorageId) (pathUnderStorage : String) (osOk : Bool)
  | makeFile (storageId : StorageId) (pathUnderStorage : String) (size : Int)
      (metadata : List (Fin 256)) (osOk : Bool)
  | unlink (storageId : StorageId) (pathUnderStorage : String) (osOk : Bool)
  | markFilled (storageId : StorageId) (fileId : String) (lo hi : Int)
  deriving DecidableEq, Repr

/-- The state after a value-or-error result: a failed operation leaves the state as it
was (section 7: validation errors have no side effects). -/
def stateAfter (s : IncrementalService) : Except Error IncrementalService → IncrementalService
  | Except.ok s1 => s1
  | Except.error _ => s

/-- Modelled from the spec: the state of the absent service after one call or
notification. -/
def step (s : IncrementalService) : Action → IncrementalService
  | Action.createStorage path createMode osOk =>
      stateAfter s
        ((BinderIncrementalService.createStorage s path createMode osOk).map Prod.snd)
  | Action.createLinkedStorage path other createMode osOk =>
      stateAfter s
        ((BinderIncrementalService.createLinkedStorage s path other createMode osOk).map
          Prod.snd)
  | Action.makeBindMount storageId pathUnderStorage targetFullPath bindType osOk =>
      stateAfter s
        (BinderIncrementalService.makeBindMount s storageId pathUnderStorage targetFullPath
          bindType osOk)
  | Action.deleteBindMount storageId targetFullPath osOk =>
      stateAfter s (BinderIncrementalService.deleteBindMount s storageId targetFullPath osOk)
  | Action.deleteStorage storageId unmountFails =>
      (BinderIncrementalService.deleteStorage s storageId unmountFails).1
  | Action.onInvalidStorage mountId unmountFails =>
      BinderIncrementalService.onInvalidStorage s mountId unmountFails
  | Action.onSystemReady persisted => BinderIncrementalService.onSystemReady s persisted
  | Action.makeDirectory storageId pathUnderStorage osOk =>
      stateAfter s (BinderIncrementalService.makeDirectory s storageId pathUnderStorage osOk)
  | Action.makeFile storageId pathUnderStorage size metadata osOk =>
      stateAfter s
        (BinderIncrementalService.makeFile s storageId pathUnderStorage size metadata osOk)
  | Action.unlink storageId pathUnderStorage osOk =>
      stateAfter s (BinderIncrementalService.unlink s storageId pathUnderStorage osOk)
  | Action.markFilled storageId fileId lo hi =>
      BinderIncrementalService.markFilled s storageId fileId lo hi

/-- The state of the service after a sequence of calls and notifications since its
start: the reachable states are the values of `run`. -/
def run (actions : List Action) : IncrementalService :=
  actions.foldl step BinderIncrementalService.start

namespace LoadingStatusTracker

/-- The byte `x` lies in one of the intervals of the list. -/
def InRanges (x : Int) (l : List Interval) : Prop := ∃ p ∈ l, p.1 ≤ x ∧ x < p.2

/-- The invariant of section 3: the intervals are non-empty, sorted and disjoint, and no
two of them touch. -/
def WellFormed : List Interval → Prop
  | [] => True
  | p :: rest => p.1 < p.2 ∧ (∀ q ∈ rest, p.2 < q.1) ∧ WellFormed rest

end LoadingStatusTracker

/-- No two mounts of the table share a target path. -/
def UniqueTargets (mounts : List BindMount) : Prop :=
  (mounts.map BindMount.targetFullPath).Nodup

/-! ### Sample runs -/

/-- A sample run: a storage is created and its root is bound to `/mnt/x`. -/
def sampleMountRun : List Action :=
  [Action.createStorage "/data/incremental/A" 0 true,
   Action.makeBindMount 1 "" "/mnt/x" BindType.temporary true]

/-- A sample run: a storage is created, the file `a.bin` is made in it and its first ten
bytes are reported filled. -/
def sampleFileRun : List Action :=
  [Action.createStorage "/data/incremental/A" 0 true,
   Action.makeFile 1 "a.bin" 100 [1, 2, 3] true,
   Action.markFilled 1 "/data/incremental/A/a.bin" 0 10]

end android.os.incremental

/-! ## Theorems -/

/-! ### `nativeIsIncrementalPath` -/

/-- C1. For every path string `p`, `nativeIsIncrementalPath` returns `JNI_TRUE` exactly
when the driver predicate `IncFs_IsIncFsPath` holds of `p`, and `JNI_FALSE` exactly when
it does not; the result is the converted driver result and depends on nothing else. -/
theorem android.nativeIsIncrementalPath_delegates
    (IncFs_IsIncFsPath : Option String → Bool) (p : String) :
    (android.nativeIsIncrementalPath IncFs_IsIncFsPath (some p) = android.JNI_TRUE ↔
        IncFs_IsIncFsPath (some p) = true) ∧
    (android.nativeIsIncrementalPath IncFs_IsIncFsPath (some p) = android.JNI_FALSE ↔
        IncFs_IsIncFsPath (some p) = false) ∧
    android.nativeIsIncrementalPath IncFs_IsIncFsPath (some p) =
      android.jbooleanOfBool (IncFs_IsIncFsPath (some p)) := by
  unfold android.nativeIsIncrementalPath android.ScopedUtfChars.ofJstring
    android.ScopedUtfChars.c_str android.jbooleanOfBool android.JNI_TRUE android.JNI_FALSE
  cases h : IncFs_IsIncFsPath (some p) <;> simp [h]

/-! ### `write_java_methods` -/

namespace android.stats_log_api_gen

open java_type_t

namespace Emit

theorem seq_skip_left (b : Emit) : seq skip b = b := by
  cases b; simp [seq, skip]

theorem seq_flow (a b : Emit) :
    (seq a b).flow = if a.flow = Flow.next then b.flow else a.flow := by
  unfold seq
  cases h : a.flow <;> simp [h]

theorem seq_out_of_next (a b : Emit) (h : a.flow = Flow.next) :
    (seq a b).out = a.out ++ b.out := by
  unfold seq; simp [h]

theorem seq_err_of_next (a b : Emit) (h : a.flow = Flow.next) :
    (seq a b).err = a.err ++ b.err := by
  unfold seq; simp [h]

theorem seq_of_not_next (a b : Emit) (h : a.flow ≠ Flow.next) : seq a b = a := by
  unfold seq
  cases h2 : a.flow <;> simp_all

theorem block_prints_flow (l : List String) : (block (l.map print)).flow = Flow.next := by
  induction l with
  | nil => rfl
  | cons s l ih => simp [block, seq_flow, print, ih]

theorem block_prints_out (l : List String) : (block (l.map print)).out = l := by
  induction l with
  | nil => rfl
  | cons s l ih =>
    have h : (print s).flow = Flow.next := rfl
    simp only [List.map_cons, block]
    rw [seq_out_of_next _ _ h, ih]; rfl

theorem block_map_print_flow {α : Type} (f : α → String) (l : List α) :
    (block (l.map fun x => print (f x))).flow = Flow.next := by
  induction l with
  | nil => rfl
  | cons s l ih =>
    simp only [List.map_cons, block, seq_flow, ih]
    simp [print]

theorem block_map_print_out {α : Type} (f : α → String) (l : List α) :
    (block (l.map fun x => print (f x))).out = l.map f := by
  induction l with
  | nil => rfl
  | cons s l ih =>
    have h : (print (f s)).flow = Flow.next := rfl
    simp only [List.map_cons, block]
    rw [seq_out_of_next _ _ h, ih]; rfl

end Emit

/-- The types that reach the `default` label of the `switch` in `writeArg`. -/
theorem writeArg_flow (indent : String) (decl : AtomDecl) (hne : decl.fields ≠ [])
    (arg : java_type_t) (i : Nat) :
    (writeArg indent decl arg i).flow =
      if (decide (arg = JAVA_TYPE_OBJECT) || decide (arg = JAVA_TYPE_DOUBLE)) = true
      then Flow.ret1 else Flow.next := by
  obtain ⟨names, hn⟩ : ∃ names, chainNames decl = some names := by
    unfold chainNames
    cases hf : decl.fields with
    | nil => exact absurd hf hne
    | cons f fs =>
      have h2 : (f :: fs).getLast? = some ((f :: fs).getLast (by simp)) :=
        List.getLast?_eq_getLast _ _
      rw [h2]; simp
  cases arg <;>
    simp [writeArg, hn, Emit.print, Emit.seq_flow, Emit.return1, Emit.eprint,
      Emit.block_prints_flow]

theorem forArgs_flow (body : java_type_t → Nat → Emit) (bad : java_type_t → Bool)
    (h : ∀ a i, (body a i).flow = if bad a = true then Flow.ret1 else Flow.next)
    (l : List java_type_t) (i : Nat) :
    (forArgs body l i).flow = if l.any bad = true then Flow.ret1 else Flow.next := by
  induction l generalizing i with
  | nil => rfl
  | cons a l ih =>
    simp only [forArgs, Emit.seq_flow, h, ih, List.any_cons]
    by_cases hb : bad a = true <;> simp [hb]

theorem printParam_flow (U : Utils) (decl : AtomDecl) (arg : java_type_t) (i : Nat) :
    (printParam U decl arg i).flow = Flow.next := by
  unfold printParam
  split
  · exact Emit.block_map_print_flow _ _
  · split <;> rfl

theorem forArgs_printParam_flow (U : Utils) (decl : AtomDecl) (l : List java_type_t) (i : Nat) :
    (forArgs (printParam U decl) l i).flow = Flow.next := by
  have := forArgs_flow (printParam U decl) (fun _ => false)
    (fun a i => by simp [printParam_flow]) l i
  simpa using this

theorem writeQArg_flow (decl : AtomDecl) (hne : decl.fields ≠ [])
    (arg : java_type_t) (i : Nat) :
    (writeQArg decl arg i).flow =
      if decide (arg = JAVA_TYPE_KEY_VALUE_PAIR) = true then Flow.ret1 else Flow.next := by
  obtain ⟨names, hn⟩ : ∃ names, chainNames decl = some names := by
    unfold chainNames
    cases hf : decl.fields with
    | nil => exact absurd hf hne
    | cons f fs =>
      have h2 : (f :: fs).getLast? = some ((f :: fs).getLast (by simp)) :=
        List.getLast?_eq_getLast _ _
      rw [h2]; simp
  cases arg <;>
    simp [writeQArg, hn, Emit.print, Emit.seq_flow, Emit.return1, Emit.eprint]

/-- Whether one entry of the map makes `write_java_methods` return 1. -/
theorem writeMethod_flow (U : Utils) (decl : AtomDecl) (hne : decl.fields ≠ [])
    (moduleName : String) (entry : List java_type_t × List String) :
    (writeMethod U decl moduleName entry).flow =
      if U.signature_needed_for_module entry.2 moduleName = true ∧
          ((∃ t ∈ entry.1, t = JAVA_TYPE_OBJECT ∨ t = JAVA_TYPE_DOUBLE) ∨
            (moduleName ≠ U.DEFAULT_MODULE_NAME ∧ JAVA_TYPE_KEY_VALUE_PAIR ∈ entry.1))
      then Flow.ret1 else Flow.next := by
  unfold writeMethod
  cases hneed : U.signature_needed_for_module entry.2 moduleName
  · simp [Emit.skip]
  · have hb := forArgs_flow _ _ (writeArg_flow
      (if U.DEFAULT_MODULE_NAME ≠ moduleName then "    " else "") decl hne) entry.1 1
    have hq := forArgs_flow _ _ (writeQArg_flow decl hne) entry.1 1
    have hp := forArgs_printParam_flow U decl entry.1 1
    by_cases hd : U.DEFAULT_MODULE_NAME = moduleName
    · simp [Emit.block, Emit.seq_flow, hd, hp, Emit.print, Emit.skip] at hb ⊢
      rw [hb]
      by_cases h1 : ∃ x ∈ entry.1, x = JAVA_TYPE_OBJECT ∨ x = JAVA_TYPE_DOUBLE
      · simp [h1]
      · simp only [h1, if_false]; simp
    · have hd2 : ¬ moduleName = U.DEFAULT_MODULE_NAME := fun h => hd h.symm
      simp [Emit.block, Emit.seq_flow, hd, hp, Emit.print, Emit.skip] at hb hq ⊢
      rw [hb, hq]
      by_cases h1 : ∃ x ∈ entry.1, x = JAVA_TYPE_OBJECT ∨ x = JAVA_TYPE_DOUBLE
      · simp [h1]
      · by_cases h2 : JAVA_TYPE_KEY_VALUE_PAIR ∈ entry.1
        · simp only [h1, h2, hd2, if_false]; simp
        · simp only [h1, h2, hd2, if_false]; simp

theorem forSignatures_flow (body : List java_type_t × List String → Emit)
    (bad : List java_type_t × List String → Prop) [DecidablePred bad]
    (h : ∀ e, (body e).flow = if bad e then Flow.ret1 else Flow.next)
    (l : List (List java_type_t × List String)) :
    (forSignatures body l).flow = if ∃ e ∈ l, bad e then Flow.ret1 else Flow.next := by
  induction l with
  | nil => simp [forSignatures, Emit.skip]
  | cons a l ih =>
    simp only [forSignatures, Emit.seq_flow, h, ih, List.exists_mem_cons_iff]
    by_cases hb : bad a <;> by_cases hx : ∃ e ∈ l, bad e <;> simp [hb, hx]

theorem forSignatures_filter (body : List java_type_t × List String → Emit)
    (keep : List java_type_t × List String → Bool)
    (h : ∀ e, keep e = false → body e = Emit.skip)
    (l : List (List java_type_t × List String)) :
    forSignatures body (l.filter keep) = forSignatures body l := by
  induction l with
  | nil => rfl
  | cons a l ih =>
    cases hk : keep a
    · rw [List.filter_cons_of_neg (by simp [hk])]
      simp [forSignatures, h a hk, Emit.seq_skip_left, ih]
    · rw [List.filter_cons_of_pos (by simp [hk])]
      simp [forSignatures, ih]

theorem forSignatures_all_skip (body : List java_type_t × List String → Emit)
    (l : List (List java_type_t × List String))
    (h : ∀ e ∈ l, body e = Emit.skip) :
    forSignatures body l = Emit.skip := by
  induction l with
  | nil => rfl
  | cons a l ih =>
    simp only [forSignatures]
    rw [h a (List.mem_cons_self _ _), Emit.seq_skip_left]
    exact ih fun e he => h e (List.mem_cons_of_mem _ he)

theorem writeMethod_not_needed (U : Utils) (decl : AtomDecl) (moduleName : String)
    (e : List java_type_t × List String)
    (h : U.signature_needed_for_module e.2 moduleName = false) :
    writeMethod U decl moduleName e = Emit.skip := by
  simp [writeMethod, h]

/-- C5. For every signature map, attribution declaration with a non-empty field vector
and module name, `write_java_methods` returns, and it returns 1 if and only if some
signature that `signature_needed_for_module` accepts for the module contains an
unsupported argument type (`OBJECT` or `DOUBLE`) or, when the module is not
`DEFAULT_MODULE_NAME`, contains `KEY_VALUE_PAIR`; otherwise it returns 0. The unsupported
types are exactly those outside the nine handled by the `switch`. -/
theorem write_java_methods_returns_one_iff (U : Utils)
    (signatures_to_modules : List (List java_type_t × List String))
    (attributionDecl : AtomDecl) (moduleName : String)
    (hne : attributionDecl.fields ≠ []) :
    (∃ w, write_java_methods U signatures_to_modules attributionDecl moduleName = some w ∧
      (w.ret = 1 ∨ w.ret = 0) ∧
      (w.ret = 1 ↔ ∃ e ∈ signatures_to_modules,
        U.signature_needed_for_module e.2 moduleName = true ∧
        ((∃ t ∈ e.1, t = JAVA_TYPE_OBJECT ∨ t = JAVA_TYPE_DOUBLE) ∨
          (moduleName ≠ U.DEFAULT_MODULE_NAME ∧ JAVA_TYPE_KEY_VALUE_PAIR ∈ e.1)))) ∧
    (∀ t : java_type_t, (t = JAVA_TYPE_OBJECT ∨ t = JAVA_TYPE_DOUBLE) ↔
      t ∉ [JAVA_TYPE_BOOLEAN, JAVA_TYPE_INT, JAVA_TYPE_ENUM, JAVA_TYPE_FLOAT, JAVA_TYPE_LONG,
        JAVA_TYPE_STRING, JAVA_TYPE_BYTE_ARRAY, JAVA_TYPE_ATTRIBUTION_CHAIN,
        JAVA_TYPE_KEY_VALUE_PAIR]) := by
  refine ⟨?_, fun t => by cases t <;> simp⟩
  have hflow := forSignatures_flow (writeMethod U attributionDecl moduleName) _
    (writeMethod_flow U attributionDecl hne moduleName) signatures_to_modules
  unfold write_java_methods
  by_cases hbad : ∃ e ∈ signatures_to_modules,
      U.signature_needed_for_module e.2 moduleName = true ∧
        ((∃ t ∈ e.1, t = JAVA_TYPE_OBJECT ∨ t = JAVA_TYPE_DOUBLE) ∨
          (moduleName ≠ U.DEFAULT_MODULE_NAME ∧ JAVA_TYPE_KEY_VALUE_PAIR ∈ e.1))
  · rw [if_pos hbad] at hflow
    simp only [hflow]
    exact ⟨_, rfl, Or.inl rfl, fun _ => hbad, fun _ => rfl⟩
  · rw [if_neg hbad] at hflow
    simp only [hflow]
    exact ⟨_, rfl, Or.inr rfl, fun h => by simp at h, fun h => absurd h hbad⟩

/-- Witness for C5: a map with one needed signature holding a `DOUBLE`. -/
theorem write_java_methods_returns_one_iff_witness :
    (∃ w, write_java_methods ⟨"DEFAULT", fun _ _ => true, fun _ => "T"⟩
        [([JAVA_TYPE_DOUBLE], ["m"])] ⟨[⟨"uid", JAVA_TYPE_INT⟩]⟩ "m" = some w ∧
      (w.ret = 1 ∨ w.ret = 0) ∧
      (w.ret = 1 ↔ ∃ e ∈ [(([JAVA_TYPE_DOUBLE] : List java_type_t), ["m"])],
        (fun (_ : List String) (_ : String) => true) e.2 "m" = true ∧
        ((∃ t ∈ e.1, t = JAVA_TYPE_OBJECT ∨ t = JAVA_TYPE_DOUBLE) ∨
          ("m" ≠ "DEFAULT" ∧ JAVA_TYPE_KEY_VALUE_PAIR ∈ e.1)))) ∧
    (∀ t : java_type_t, (t = JAVA_TYPE_OBJECT ∨ t = JAVA_TYPE_DOUBLE) ↔
      t ∉ [JAVA_TYPE_BOOLEAN, JAVA_TYPE_INT, JAVA_TYPE_ENUM, JAVA_TYPE_FLOAT, JAVA_TYPE_LONG,
        JAVA_TYPE_STRING, JAVA_TYPE_BYTE_ARRAY, JAVA_TYPE_ATTRIBUTION_CHAIN,
        JAVA_TYPE_KEY_VALUE_PAIR]) :=
  write_java_methods_returns_one_iff ⟨"DEFAULT", fun _ _ => true, fun _ => "T"⟩
    [([JAVA_TYPE_DOUBLE], ["m"])] ⟨[⟨"uid", JAVA_TYPE_INT⟩]⟩ "m" (by simp)

/-- C6. Signatures that are not needed for the module are skipped: the value returned
and everything printed by `write_java_methods`, and so the text emitted, are those
obtained on the map restricted to the signatures for which `signature_needed_for_module`
is true, and a map of signatures that are all not needed prints nothing and returns 0. -/
theorem write_java_methods_skips_unneeded (U : Utils)
    (signatures_to_modules : List (List java_type_t × List String))
    (attributionDecl : AtomDecl) (moduleName : String) :
    write_java_methods U signatures_to_modules attributionDecl moduleName =
      write_java_methods U
        (signatures_to_modules.filter fun e => U.signature_needed_for_module e.2 moduleName)
        attributionDecl moduleName ∧
    (write_java_methods U signatures_to_modules attributionDecl moduleName).map
        (fun w => (w.ret, w.text)) =
      (write_java_methods U
        (signatures_to_modules.filter fun e => U.signature_needed_for_module e.2 moduleName)
        attributionDecl moduleName).map (fun w => (w.ret, w.text)) ∧
    write_java_methods U
        (signatures_to_modules.filter fun e => !U.signature_needed_for_module e.2 moduleName)
        attributionDecl moduleName = some ⟨0, [], []⟩ := by
  have hskip := forSignatures_filter (writeMethod U attributionDecl moduleName)
    (fun e => U.signature_needed_for_module e.2 moduleName)
    (fun e h => writeMethod_not_needed U attributionDecl moduleName e h) signatures_to_modules
  refine ⟨?_, ?_, ?_⟩
  · unfold write_java_methods
    rw [hskip]
  · unfold write_java_methods
    rw [hskip]
  · unfold write_java_methods
    rw [forSignatures_all_skip]
    · rfl
    · intro e he
      have := (List.mem_filter.mp he).2
      exact writeMethod_not_needed U attributionDecl moduleName e (by simpa using this)

namespace Emit

theorem seq_flow_next_iff (a b : Emit) :
    (seq a b).flow = Flow.next ↔ a.flow = Flow.next ∧ b.flow = Flow.next := by
  rw [seq_flow]
  by_cases h : a.flow = Flow.next <;> simp [h]

theorem seq_assoc (a b c : Emit) : seq (seq a b) c = seq a (seq b c) := by
  by_cases ha : a.flow = Flow.next
  · by_cases hb : b.flow = Flow.next
    · have hab : (seq a b).flow = Flow.next := (seq_flow_next_iff a b).2 ⟨ha, hb⟩
      simp only [seq, ha, hb, List.append_assoc]
    · have hab : (seq a b).flow ≠ Flow.next := fun h => hb ((seq_flow_next_iff a b).1 h).2
      rw [seq_of_not_next _ c hab, seq_of_not_next b c hb]
  · rw [seq_of_not_next a b ha, seq_of_not_next a c ha, seq_of_not_next a _ ha]

theorem block_out_of_next (l : List Emit) (h : (block l).flow = Flow.next) :
    (block l).out = (l.map Emit.out).flatten := by
  induction l with
  | nil => rfl
  | cons a l ih =>
    simp only [block] at h ⊢
    obtain ⟨ha, hl⟩ := (seq_flow_next_iff _ _).1 h
    rw [seq_out_of_next _ _ ha, ih hl]
    simp

theorem block_flow_next_iff (l : List Emit) :
    (block l).flow = Flow.next ↔ ∀ e ∈ l, e.flow = Flow.next := by
  induction l with
  | nil => simp [block, skip]
  | cons a l ih => simp [block, seq_flow_next_iff, ih]

end Emit

theorem forSignatures_append (body : List java_type_t × List String → Emit)
    (l1 l2 : List (List java_type_t × List String)) :
    forSignatures body (l1 ++ l2) =
      Emit.seq (forSignatures body l1) (forSignatures body l2) := by
  induction l1 with
  | nil => simp [forSignatures, Emit.seq_skip_left]
  | cons a l ih => simp [forSignatures, ih, Emit.seq_assoc]

theorem forSignatures_out_of_next (body : List java_type_t × List String → Emit)
    (l : List (List java_type_t × List String))
    (h : (forSignatures body l).flow = Flow.next) :
    (forSignatures body l).out = (l.map fun e => (body e).out).flatten ∧
      ∀ e ∈ l, (body e).flow = Flow.next := by
  induction l with
  | nil => simp [forSignatures, Emit.skip]
  | cons a l ih =>
    simp only [forSignatures] at h ⊢
    obtain ⟨ha, hl⟩ := (Emit.seq_flow_next_iff _ _).1 h
    rw [Emit.seq_out_of_next _ _ ha, (ih hl).1]
    refine ⟨by simp, ?_⟩
    intro e he
    rcases List.mem_cons.1 he with rfl | he
    · exact ha
    · exact (ih hl).2 e he

theorem forArgs_writeQArg_out (decl : AtomDecl) (first last : String)
    (hn : chainNames decl = some (first, last)) (l : List java_type_t) (i : Nat)
    (h : (forArgs (writeQArg decl) l i).flow = Flow.next) :
    (forArgs (writeQArg decl) l i).out =
      (l.enumFrom i).map fun p =>
        if p.2 = JAVA_TYPE_ATTRIBUTION_CHAIN then ", " ++ first ++ ", " ++ last
        else ", arg" ++ toString p.1 := by
  induction l generalizing i with
  | nil => rfl
  | cons a l ih =>
    simp only [forArgs] at h ⊢
    obtain ⟨ha, hl⟩ := (Emit.seq_flow_next_iff _ _).1 h
    rw [Emit.seq_out_of_next _ _ ha, ih _ hl]
    simp only [List.enumFrom_cons, List.map_cons]
    unfold writeQArg at ha ⊢
    by_cases hc : a = JAVA_TYPE_ATTRIBUTION_CHAIN
    · simp [hc, hn, Emit.print]
    · by_cases hk : a = JAVA_TYPE_KEY_VALUE_PAIR
      · simp [hk, Emit.seq_flow, Emit.eprint, Emit.return1] at ha
      · simp [hc, hk, Emit.print]

theorem chainNames_of_ne_nil (decl : AtomDecl) (hne : decl.fields ≠ []) :
    chainNames decl = some ((decl.fields.head hne).name, (decl.fields.getLast hne).name) := by
  unfold chainNames
  rw [List.head?_eq_head hne, List.getLast?_eq_getLast _ hne]

/-- The output of one iteration for a module other than the default one. -/
theorem writeMethod_out_guarded (U : Utils) (decl : AtomDecl) (hne : decl.fields ≠ [])
    (moduleName : String) (hd : moduleName ≠ U.DEFAULT_MODULE_NAME)
    (e : List java_type_t × List String)
    (hneed : U.signature_needed_for_module e.2 moduleName = true)
    (h : (writeMethod U decl moduleName e).flow = Flow.next) :
    (writeMethod U decl moduleName e).out =
      guardedMethodSpec U decl (decl.fields.head hne).name (decl.fields.getLast hne).name e.1 := by
  have hd2 : ¬ U.DEFAULT_MODULE_NAME = moduleName := fun h => hd h.symm
  unfold writeMethod at h ⊢
  simp only [hneed, Bool.not_true, Bool.false_eq_true, if_false, hd2, ne_eq, not_false_eq_true,
    if_true] at h ⊢
  rw [Emit.block_out_of_next _ h]
  have hall := (Emit.block_flow_next_iff _).1 h
  have hq : (forArgs (writeQArg decl) e.1 1).flow = Flow.next := by
    have := hall (Emit.block
            [ Emit.print "        \x7d else \x7b\n",
              Emit.print "            QLogger.write(code",
              forArgs (writeQArg decl) e.1 1,
              Emit.print ");\n",
              Emit.print "        \x7d\n" ]) (by simp)
    exact (Emit.block_flow_next_iff _).1 this _ (by simp)
  have hqb : (Emit.block
            [ Emit.print "        \x7d else \x7b\n",
              Emit.print "            QLogger.write(code",
              forArgs (writeQArg decl) e.1 1,
              Emit.print ");\n",
              Emit.print "        \x7d\n" ]).flow = Flow.next :=
    (Emit.block_flow_next_iff _).2 (by simp [Emit.print, hq])
  have hqo := Emit.block_out_of_next _ hqb
  simp only [List.map_cons, List.map_nil] at hqo ⊢
  rw [hqo, forArgs_writeQArg_out decl _ _ (chainNames_of_ne_nil decl hne) _ _ hq]
  simp [guardedMethodSpec, qLoggerArgsSpec, Emit.print, Emit.skip, methodStart, sdkGuardLine,
    qLoggerCall]

/-- The output of one iteration for the default module. -/
theorem writeMethod_out_hidden (U : Utils) (decl : AtomDecl)
    (e : List java_type_t × List String)
    (hneed : U.signature_needed_for_module e.2 U.DEFAULT_MODULE_NAME = true)
    (h : (writeMethod U decl U.DEFAULT_MODULE_NAME e).flow = Flow.next) :
    (writeMethod U decl U.DEFAULT_MODULE_NAME e).out = hiddenMethodSpec U decl e.1 := by
  unfold writeMethod at h ⊢
  simp only [hneed, Bool.not_true, Bool.false_eq_true, if_false, ne_eq, not_true_eq_false,
    if_true] at h ⊢
  rw [Emit.block_out_of_next _ h]
  simp [hiddenMethodSpec, Emit.print, Emit.skip, methodStart, hideLine]

theorem string_ne_of_take (n : Nat) (a b : String) (h : a.data.take n ≠ b.data.take n) :
    a ≠ b := by
  intro hab; subst hab; exact h rfl

namespace Emit

theorem mem_seq_out (a b : Emit) (s : String) (h : s ∈ (seq a b).out) :
    s ∈ a.out ∨ s ∈ b.out := by
  by_cases ha : a.flow = Flow.next
  · rw [seq_out_of_next _ _ ha] at h
    exact List.mem_append.1 h
  · rw [seq_of_not_next _ _ ha] at h
    exact Or.inl h

theorem mem_block_out (l : List Emit) (s : String) (h : s ∈ (block l).out) :
    ∃ e ∈ l, s ∈ e.out := by
  induction l with
  | nil => simp [block, skip] at h
  | cons a l ih =>
    rcases mem_seq_out _ _ _ h with h | h
    · exact ⟨a, List.mem_cons_self _ _, h⟩
    · obtain ⟨e, he, hs⟩ := ih h
      exact ⟨e, List.mem_cons_of_mem _ he, hs⟩

end Emit

theorem mem_forArgs_out (body : java_type_t → Nat → Emit) (l : List java_type_t) (i : Nat)
    (s : String) (h : s ∈ (forArgs body l i).out) : ∃ a j, s ∈ (body a j).out := by
  induction l generalizing i with
  | nil => simp [forArgs, Emit.skip] at h
  | cons a l ih =>
    rcases Emit.mem_seq_out _ _ _ h with h | h
    · exact ⟨a, i, h⟩
    · exact ih _ h

theorem printParam_unmarked (U : Utils) (decl : AtomDecl) (arg : java_type_t) (i : Nat)
    (s : String) (h : s ∈ (printParam U decl arg i).out) : Unmarked s := by
  unfold printParam at h
  have key : ∀ x : String, Unmarked (", " ++ x) := by
    intro x
    refine ⟨?_, ?_, ?_⟩ <;> apply string_ne_of_take 1 <;>
      simp [String.data_append, methodStart, sdkGuardLine, qLoggerCall]
  split at h
  · rw [Emit.block_map_print_out] at h
    obtain ⟨f, _, rfl⟩ := List.mem_map.1 h
    simpa [String.append_assoc] using key _
  · split at h
    · simp only [Emit.print, List.mem_singleton] at h
      subst h
      exact key "SparseArray<Object> valueMap"
    · simp only [Emit.print, List.mem_singleton] at h
      subst h
      simpa [String.append_assoc] using key _

theorem keyValuePairLines_unmarked (s : String) (h : s ∈ keyValuePairLines "") :
    Unmarked s := by
  simp only [keyValuePairLines, List.mem_cons, List.mem_singleton, List.not_mem_nil,
    or_false] at h
  rcases h with h | h | h | h | h | h | h | h | h | h | h | h | h | h | h | h | h | h | h | h | h <;>
    subst h <;> refine ⟨?_, ?_, ?_⟩ <;> apply string_ne_of_take 13 <;>
      simp [String.data_append, methodStart, sdkGuardLine, qLoggerCall]

theorem writeArg_unmarked (decl : AtomDecl) (arg : java_type_t) (i : Nat)
    (s : String) (h : s ∈ (writeArg "" decl arg i).out) : Unmarked s := by
  unfold writeArg at h
  cases arg
  case JAVA_TYPE_KEY_VALUE_PAIR =>
    simp only [Emit.block_prints_out] at h
    exact keyValuePairLines_unmarked s h
  case JAVA_TYPE_ATTRIBUTION_CHAIN =>
    simp only at h
    cases hn : chainNames decl with
    | none => simp [hn, Emit.undefined] at h
    | some names =>
      obtain ⟨u, t⟩ := names
      simp only [hn, Emit.print, List.mem_singleton] at h
      subst h
      refine ⟨?_, ?_, ?_⟩ <;> apply string_ne_of_take 13 <;>
        simp [String.data_append, methodStart, sdkGuardLine, qLoggerCall]
  all_goals
    first
    | (simp only [Emit.print, List.mem_singleton] at h
       subst h
       refine ⟨?_, ?_, ?_⟩ <;> apply string_ne_of_take 13 <;>
        simp [String.data_append, methodStart, sdkGuardLine, qLoggerCall])
    | (simp [Emit.seq, Emit.eprint, Emit.return1] at h)

theorem precededBy_of_not_mem (a b : String) (l : List String) (h : b ∉ l) :
    PrecededBy a b l := by
  intro before after hl
  exact absurd (hl ▸ List.mem_append_right _ (List.mem_cons_self _ _)) h

theorem precededBy_append (a b : String) (l1 l2 : List String)
    (h1 : PrecededBy a b l1) (h2 : PrecededBy a b l2) : PrecededBy a b (l1 ++ l2) := by
  intro before after hl
  rcases List.append_eq_append_iff.1 hl with ⟨c, hb, hc⟩ | ⟨c, hb, hc⟩
  · -- `before = l1 ++ c` and `l2 = c ++ b :: after`
    obtain ⟨c0, hc0⟩ := h2 c after hc
    exact ⟨l1 ++ c0, by rw [hb, hc0, List.append_assoc]⟩
  · -- `l1 = before ++ c` and `b :: after = c ++ l2`
    cases c with
    | nil =>
      simp only [List.nil_append] at hc
      obtain ⟨c0, hc0⟩ := h2 [] after hc.symm
      simp at hc0
    | cons x c =>
      simp only [List.cons_append, List.cons.injEq] at hc
      obtain ⟨rfl, _⟩ := hc
      exact h1 before c hb

theorem precededBy_pair (a b : String) (hab : a ≠ b) (l : List String) (h : b ∉ l) :
    PrecededBy a b (a :: b :: l) := by
  intro before after hl
  cases before with
  | nil =>
    simp only [List.nil_append, List.cons.injEq] at hl
    exact absurd hl.1 hab
  | cons x before =>
    simp only [List.cons_append, List.cons.injEq] at hl
    obtain ⟨rfl, hl⟩ := hl
    cases before with
    | nil => exact ⟨[], rfl⟩
    | cons y before =>
      simp only [List.cons_append, List.cons.injEq] at hl
      exact absurd (hl.2 ▸ List.mem_append_right _ (List.mem_cons_self _ _)) h

theorem plainOutput_append (l1 l2 : List String) (h1 : PlainOutput l1) (h2 : PlainOutput l2) :
    PlainOutput (l1 ++ l2) :=
  ⟨by simp [h1.1, h2.1], by simp [h1.2.1, h2.2.1], precededBy_append _ _ _ _ h1.2.2 h2.2.2⟩

theorem writeMethod_plain (U : Utils) (decl : AtomDecl)
    (e : List java_type_t × List String) :
    PlainOutput (writeMethod U decl U.DEFAULT_MODULE_NAME e).out := by
  unfold writeMethod
  cases hneed : U.signature_needed_for_module e.2 U.DEFAULT_MODULE_NAME
  · simp only [Bool.not_false, if_true, Emit.skip]
    exact ⟨by simp, by simp, precededBy_of_not_mem _ _ _ (by simp)⟩
  · simp only [Bool.not_true, Bool.false_eq_true, if_false, ne_eq, not_true_eq_false, if_true]
    have hout : ∀ r : Emit, (Emit.seq (Emit.print hideLine)
        (Emit.seq (Emit.print methodStart) r)).out = hideLine :: methodStart :: r.out := by
      intro r; simp [Emit.seq, Emit.print]
    show PlainOutput (Emit.seq (Emit.print hideLine) (Emit.seq (Emit.print methodStart)
      (Emit.block
        [ forArgs (printParam U decl) e.1 1,
          Emit.print ") \x7b\n",
          Emit.skip,
          Emit.print ("" ++ "        final StatsEvent.Builder builder = StatsEvent.newBuilder();\n"),
          Emit.print ("" ++ "        builder.setAtomId(code);\n"),
          forArgs (writeArg "" decl) e.1 1,
          Emit.print "\n",
          Emit.print ("" ++ "        StatsLog.write(builder.build());\n"),
          Emit.skip,
          Emit.print "    \x7d\n",
          Emit.print "\n" ]))).out
    rw [hout]
    generalize hrest : Emit.block
        [ forArgs (printParam U decl) e.1 1,
          Emit.print ") \x7b\n",
          Emit.skip,
          Emit.print ("" ++ "        final StatsEvent.Builder builder = StatsEvent.newBuilder();\n"),
          Emit.print ("" ++ "        builder.setAtomId(code);\n"),
          forArgs (writeArg "" decl) e.1 1,
          Emit.print "\n",
          Emit.print ("" ++ "        StatsLog.write(builder.build());\n"),
          Emit.skip,
          Emit.print "    \x7d\n",
          Emit.print "\n" ] = r
    have hun : ∀ s ∈ r.out, Unmarked s := by
      intro s hs
      rw [← hrest] at hs
      obtain ⟨x, hx, hsx⟩ := Emit.mem_block_out _ _ hs
      simp only [List.mem_cons, List.mem_singleton, List.not_mem_nil, or_false] at hx
      rcases hx with rfl | rfl | rfl | rfl | rfl | rfl | rfl | rfl | rfl | rfl | rfl
      · obtain ⟨a, j, h⟩ := mem_forArgs_out _ _ _ _ hsx
        exact printParam_unmarked U decl a j s h
      all_goals
        first
        | (obtain ⟨a, j, h⟩ := mem_forArgs_out _ _ _ _ hsx
           exact writeArg_unmarked decl a j s h)
        | (simp only [Emit.skip, List.not_mem_nil] at hsx)
        | (simp only [Emit.print, List.mem_singleton] at hsx
           subst hsx
           refine ⟨?_, ?_, ?_⟩ <;> apply string_ne_of_take 13 <;>
             simp [String.data_append, methodStart, sdkGuardLine, qLoggerCall])
    refine ⟨?_, ?_, ?_⟩
    · simp only [List.mem_cons, not_or]
      refine ⟨?_, ?_, fun h => (hun _ h).2.1 rfl⟩ <;> apply string_ne_of_take 13 <;>
        simp [hideLine, methodStart, sdkGuardLine]
    · simp only [List.mem_cons, not_or]
      refine ⟨?_, ?_, fun h => (hun _ h).2.2 rfl⟩ <;> apply string_ne_of_take 13 <;>
        simp [hideLine, methodStart, qLoggerCall]
    · apply precededBy_pair
      · apply string_ne_of_take 13
        simp [hideLine, methodStart]
      · exact fun h => (hun _ h).1 rfl

theorem forSignatures_plain (U : Utils) (decl : AtomDecl)
    (l : List (List java_type_t × List String)) :
    PlainOutput (forSignatures (writeMethod U decl U.DEFAULT_MODULE_NAME) l).out := by
  induction l with
  | nil => exact ⟨by simp [forSignatures, Emit.skip], by simp [forSignatures, Emit.skip],
      precededBy_of_not_mem _ _ _ (by simp [forSignatures, Emit.skip])⟩
  | cons e l ih =>
    simp only [forSignatures]
    by_cases hf : (writeMethod U decl U.DEFAULT_MODULE_NAME e).flow = Flow.next
    · rw [Emit.seq_out_of_next _ _ hf]
      exact plainOutput_append _ _ (writeMethod_plain U decl e) ih
    · rw [Emit.seq_of_not_next _ _ hf]
      exact writeMethod_plain U decl e

/-- C7. The Q-schema fallback is added exactly when the module is not the default
module. Let the map entries `pre` be emitted successfully (the run on `pre` returns 0);
then what is printed for `pre` stays at the head of the output for any longer map
`pre ++ rest`. For a module other than the default one, each needed signature of `pre`
is printed as `guardedMethodSpec` states: the builder body inside
`if (Build.VERSION.SDK_INT >= Build.VERSION_CODES.R)` and an `else` branch calling
`QLogger.write(code, ...)` with `argN` for the ordinary argument at position `N` and the
first and last attribution field names for a chain. For the default module each needed
signature is printed as `hiddenMethodSpec` states, and in every run neither the guard nor
the `QLogger.write` call is printed and each method start directly follows `/** @hide */`. -/
theorem write_java_methods_q_schema_fallback (U : Utils) (attributionDecl : AtomDecl)
    (moduleName : String) (pre rest : List (List java_type_t × List String)) (w0 : Written)
    (hne : attributionDecl.fields ≠ [])
    (hpre : write_java_methods U pre attributionDecl moduleName = some w0)
    (hret : w0.ret = 0) :
    (write_java_methods U (pre ++ rest) attributionDecl moduleName).map Written.out =
      (write_java_methods U rest attributionDecl moduleName).map (fun w => w0.out ++ w.out) ∧
    (moduleName ≠ U.DEFAULT_MODULE_NAME →
      w0.out = ((pre.filter fun e => U.signature_needed_for_module e.2 moduleName).map
        fun e => guardedMethodSpec U attributionDecl (attributionDecl.fields.head hne).name
          (attributionDecl.fields.getLast hne).name e.1).flatten) ∧
    (moduleName = U.DEFAULT_MODULE_NAME →
      w0.out = ((pre.filter fun e => U.signature_needed_for_module e.2 moduleName).map
        fun e => hiddenMethodSpec U attributionDecl e.1).flatten) ∧
    (moduleName = U.DEFAULT_MODULE_NAME →
      ∀ w, write_java_methods U (pre ++ rest) attributionDecl moduleName = some w →
        sdkGuardLine ∉ w.out ∧ qLoggerCall ∉ w.out ∧ PrecededBy hideLine methodStart w.out) := by
  have hflow : (forSignatures (writeMethod U attributionDecl moduleName) pre).flow = Flow.next ∧
      w0.out = (forSignatures (writeMethod U attributionDecl moduleName) pre).out := by
    unfold write_java_methods at hpre
    cases hf : (forSignatures (writeMethod U attributionDecl moduleName) pre).flow
    · simp only [hf, Option.some.injEq] at hpre
      exact ⟨rfl, by rw [← hpre]⟩
    · simp only [hf, Option.some.injEq] at hpre
      rw [← hpre] at hret
      simp at hret
    · simp [hf] at hpre
  obtain ⟨hnext, hout⟩ := hflow
  refine ⟨?_, ?_, ?_, ?_⟩
  · unfold write_java_methods
    simp only [forSignatures_append]
    rw [Emit.seq_flow, if_pos hnext, Emit.seq_out_of_next _ _ hnext, Emit.seq_err_of_next _ _ hnext,
      ← hout]
    cases (forSignatures (writeMethod U attributionDecl moduleName) rest).flow <;> simp
  · intro hd
    rw [hout, ← forSignatures_filter _ (fun e => U.signature_needed_for_module e.2 moduleName)
      (fun e h => writeMethod_not_needed U attributionDecl moduleName e h)] at *
    obtain ⟨ho, hall⟩ := forSignatures_out_of_next _ _ hnext
    rw [ho]
    congr 1
    apply List.map_congr_left
    intro e he
    exact writeMethod_out_guarded U attributionDecl hne moduleName hd e
      (List.mem_filter.1 he).2 (hall e he)
  · intro hd
    subst hd
    rw [hout, ← forSignatures_filter _
      (fun e => U.signature_needed_for_module e.2 U.DEFAULT_MODULE_NAME)
      (fun e h => writeMethod_not_needed U attributionDecl U.DEFAULT_MODULE_NAME e h)] at *
    obtain ⟨ho, hall⟩ := forSignatures_out_of_next _ _ hnext
    rw [ho]
    congr 1
    apply List.map_congr_left
    intro e he
    exact writeMethod_out_hidden U attributionDecl e (List.mem_filter.1 he).2 (hall e he)
  · intro hd w hw
    subst hd
    have hp := forSignatures_plain U attributionDecl (pre ++ rest)
    unfold write_java_methods at hw
    cases hf : (forSignatures (writeMethod U attributionDecl U.DEFAULT_MODULE_NAME)
        (pre ++ rest)).flow <;> simp only [hf, Option.some.injEq] at hw
    · rw [← hw]; exact hp
    · rw [← hw]; exact hp
    · simp at hw

/-- The output of the generator on the sample signature map for the module `m`, string by
string. -/
theorem write_java_methods_sample :
    write_java_methods sampleUtils sampleSignatures sampleDecl "m" = some
      ⟨0,
       [ "    public static void write(int code", ", int arg1", ", int[] uid", ", int[] tag",
         ") \x7b\n",
         "        if (Build.VERSION.SDK_INT >= Build.VERSION_CODES.R) \x7b\n",
         "            final StatsEvent.Builder builder = StatsEvent.newBuilder();\n",
         "            builder.setAtomId(code);\n",
         "            builder.writeInt(arg1);\n",
         "            builder.writeAttributionChain(uid, tag);\n",
         "\n",
         "            StatsLog.write(builder.build());\n",
         "        \x7d else \x7b\n",
         "            QLogger.write(code", ", arg1", ", uid, tag", ");\n",
         "        \x7d\n",
         "    \x7d\n",
         "\n" ],
       []⟩ := by
  rfl

/-- Witness for C7: the sample signature map, emitted for the module `m`. -/
theorem write_java_methods_q_schema_fallback_witness :
    sampleDecl.fields ≠ [] ∧
    write_java_methods sampleUtils sampleSignatures sampleDecl "m" =
      some ⟨0, guardedMethodSpec sampleUtils sampleDecl "uid" "tag"
        [JAVA_TYPE_INT, JAVA_TYPE_ATTRIBUTION_CHAIN], []⟩ ∧
    (write_java_methods sampleUtils (sampleSignatures ++ []) sampleDecl "m").map Written.out =
      (write_java_methods sampleUtils [] sampleDecl "m").map (fun w =>
        guardedMethodSpec sampleUtils sampleDecl "uid" "tag"
          [JAVA_TYPE_INT, JAVA_TYPE_ATTRIBUTION_CHAIN] ++ w.out) :=
  ⟨by simp [sampleDecl], rfl,
    (write_java_methods_q_schema_fallback sampleUtils sampleDecl "m" sampleSignatures []
      ⟨0, guardedMethodSpec sampleUtils sampleDecl "uid" "tag"
        [JAVA_TYPE_INT, JAVA_TYPE_ATTRIBUTION_CHAIN], []⟩ (by simp [sampleDecl]) rfl rfl).1⟩

end android.stats_log_api_gen

/-! ### The incremental service -/

namespace android.os.incremental

namespace LoadingStatusTracker

theorem inRanges_nil (x : Int) : ¬ InRanges x [] := by
  rintro ⟨p, hp, _⟩; simp at hp

theorem inRanges_cons (x : Int) (p : Interval) (l : List Interval) :
    InRanges x (p :: l) ↔ (p.1 ≤ x ∧ x < p.2) ∨ InRanges x l := by
  simp [InRanges]

theorem insertRange_lower (c : Int) (l : List Interval) :
    ∀ lo hi : Int, c < lo → (∀ q ∈ l, c < q.1) → ∀ q ∈ insertRange lo hi l, c < q.1 := by
  induction l with
  | nil =>
    intro lo hi hc _ q hq
    simp only [insertRange, List.mem_singleton] at hq
    subst hq; exact hc
  | cons p rest ih =>
    obtain ⟨a, b⟩ := p
    intro lo hi hc hl q hq
    have ha : c < a := hl (a, b) (List.mem_cons_self _ _)
    have hrest : ∀ q ∈ rest, c < q.1 := fun q hq => hl q (List.mem_cons_of_mem _ hq)
    simp only [insertRange] at hq
    split at hq
    · rcases List.mem_cons.1 hq with rfl | hq
      · exact hc
      · exact hl q hq
    · split at hq
      · rcases List.mem_cons.1 hq with rfl | hq
        · exact ha
        · exact ih lo hi hc hrest q hq
      · exact ih (min lo a) (max hi b) (lt_min hc ha) hrest q hq

theorem insertRange_wellFormed (l : List Interval) :
    ∀ lo hi : Int, lo < hi → WellFormed l → WellFormed (insertRange lo hi l) := by
  induction l with
  | nil =>
    intro lo hi h _
    simp [insertRange, WellFormed, h]
  | cons p rest ih =>
    obtain ⟨a, b⟩ := p
    intro lo hi h hw
    obtain ⟨hab, hsep, hrest⟩ := hw
    simp only at hab hsep
    simp only [insertRange]
    split
    · rename_i h1
      refine ⟨h, ?_, hab, hsep, hrest⟩
      intro q hq
      rcases List.mem_cons.1 hq with rfl | hq
      · exact h1
      · exact lt_trans (lt_trans h1 hab) (hsep q hq)
    · split
      · rename_i h1 h2
        exact ⟨hab, insertRange_lower b rest lo hi h2 hsep, ih lo hi h hrest⟩
      · exact ih (min lo a) (max hi b)
          (lt_of_le_of_lt (min_le_left _ _) (lt_of_lt_of_le h (le_max_left _ _))) hrest

theorem insertRange_inRanges (x : Int) (l : List Interval) :
    ∀ lo hi : Int, lo < hi → WellFormed l →
      (InRanges x (insertRange lo hi l) ↔ (lo ≤ x ∧ x < hi) ∨ InRanges x l) := by
  induction l with
  | nil =>
    intro lo hi _ _
    simp [insertRange, InRanges]
  | cons p rest ih =>
    obtain ⟨a, b⟩ := p
    intro lo hi h hw
    obtain ⟨hab, hsep, hrest⟩ := hw
    simp only at hab hsep
    simp only [insertRange]
    split
    · simp [inRanges_cons]
    · split
      · rw [inRanges_cons, ih lo hi h hrest, inRanges_cons]
        tauto
      · rename_i h1 h2
        have hlt : min lo a < max hi b :=
          lt_of_le_of_lt (min_le_left _ _) (lt_of_lt_of_le h (le_max_left _ _))
        rw [ih (min lo a) (max hi b) hlt hrest, inRanges_cons]
        simp only
        constructor
        · rintro (⟨h3, h4⟩ | h3)
          · by_cases hx : lo ≤ x ∧ x < hi
            · exact Or.inl hx
            · refine Or.inr (Or.inl ?_)
              rw [min_le_iff] at h3
              rw [lt_max_iff] at h4
              constructor <;> omega
          · exact Or.inr (Or.inr h3)
        · rintro (⟨h3, h4⟩ | ⟨h3, h4⟩ | h3)
          · exact Or.inl ⟨le_trans (min_le_left _ _) h3, lt_of_lt_of_le h4 (le_max_left _ _)⟩
          · exact Or.inl ⟨le_trans (min_le_right _ _) h3, lt_of_lt_of_le h4 (le_max_right _ _)⟩
          · exact Or.inr h3

theorem covered_iff (l : List Interval) :
    ∀ lo hi : Int, WellFormed l →
      (covered lo hi l = true ↔ ∀ x, lo ≤ x → x < hi → InRanges x l) := by
  induction l with
  | nil =>
    intro lo hi _
    simp only [covered, decide_eq_true_eq]
    constructor
    · intro h x h1 h2; omega
    · intro h
      by_contra hc
      exact inRanges_nil lo (h lo (le_refl _) (by omega))
  | cons p rest ih =>
    obtain ⟨a, b⟩ := p
    intro lo hi hw
    obtain ⟨hab, hsep, hrest⟩ := hw
    simp only at hab hsep
    simp only [covered]
    split
    · rename_i h1
      simp only [true_iff]
      intro x h2 h3; omega
    · rename_i h1
      split
      · rename_i h2
        rw [ih b hi hrest]
        constructor
        · intro h x hx1 hx2
          rw [inRanges_cons]
          by_cases hxb : x < b
          · exact Or.inl ⟨le_trans h2.1 hx1, hxb⟩
          · exact Or.inr (h x (by omega) hx2)
        · intro h x hx1 hx2
          have := h x (by omega) hx2
          rw [inRanges_cons] at this
          rcases this with ⟨_, h4⟩ | h4
          · simp only at h4; omega
          · exact h4
      · rename_i h2
        rw [ih lo hi hrest]
        constructor
        · intro h x hx1 hx2
          rw [inRanges_cons]
          exact Or.inr (h x hx1 hx2)
        · intro h x hx1 hx2
          by_cases hlo : lo < a
          · exfalso
            have := h lo (le_refl _) (by omega)
            rw [inRanges_cons] at this
            rcases this with ⟨h4, _⟩ | ⟨q, hq, h4, _⟩
            · simp only at h4; omega
            · have := hsep q hq
              omega
          · have hb : b ≤ lo := by
              by_contra hc
              exact h2 ⟨by omega, by omega⟩
            have := h x hx1 hx2
            rw [inRanges_cons] at this
            rcases this with ⟨_, h4⟩ | h4
            · simp only at h4; omega
            · exact h4

theorem ranges_setRanges_same (key : FileKey) (rs : List Interval)
    (files : List (FileKey × List Interval)) :
    ranges ⟨setRanges key rs files⟩ key = rs := by
  induction files with
  | nil => simp [ranges, setRanges]
  | cons e rest ih =>
    simp only [setRanges]
    split
    · simp [ranges]
    · rename_i h
      simp only [ranges, List.find?_cons, h, decide_False] at ih ⊢
      exact ih

theorem ranges_setRanges_other (key key2 : FileKey) (hk : key2 ≠ key) (rs : List Interval)
    (files : List (FileKey × List Interval)) :
    ranges ⟨setRanges key rs files⟩ key2 = ranges ⟨files⟩ key2 := by
  induction files with
  | nil => simp [ranges, setRanges, hk.symm]
  | cons e rest ih =>
    simp only [setRanges]
    split
    · rename_i h
      simp [ranges, List.find?_cons, h, hk.symm]
    · rename_i h
      simp only [ranges, List.find?_cons] at ih ⊢
      by_cases h2 : e.1 = key2
      · simp [h2]
      · simp only [h2, decide_False]
        exact ih

theorem ranges_markFilled (t : LoadingStatusTracker) (key key2 : FileKey) (lo hi : Int) :
    (t.markFilled key lo hi).ranges key2 =
      if key2 = key ∧ lo < hi then insertRange lo hi (t.ranges key) else t.ranges key2 := by
  unfold markFilled
  by_cases h : lo < hi
  · by_cases hk : key2 = key
    · subst hk
      simp [h, ranges_setRanges_same]
    · simp [h, hk, ranges_setRanges_other _ _ hk]
  · simp [h]

end LoadingStatusTracker

open BinderIncrementalService

theorem run_snoc (actions : List Action) (a : Action) :
    run (actions ++ [a]) = step (run actions) a := by
  simp [run, List.foldl_append]

theorem createStorage_frame (s : IncrementalService) (path : String) (createMode : Int)
    (osOk : Bool) :
    (stateAfter s ((createStorage s path createMode osOk).map Prod.snd)).tracker = s.tracker ∧
    (stateAfter s ((createStorage s path createMode osOk).map Prod.snd)).mounts = s.mounts := by
  unfold createStorage
  split
  · exact ⟨rfl, rfl⟩
  · split
    · exact ⟨rfl, rfl⟩
    · exact ⟨rfl, rfl⟩

theorem createLinkedStorage_frame (s : IncrementalService) (path : String) (other : StorageId)
    (createMode : Int) (osOk : Bool) :
    (stateAfter s ((createLinkedStorage s path other createMode osOk).map Prod.snd)).tracker
      = s.tracker ∧
    (stateAfter s ((createLinkedStorage s path other createMode osOk).map Prod.snd)).mounts
      = s.mounts := by
  unfold createLinkedStorage
  split
  · exact ⟨rfl, rfl⟩
  · split
    · exact ⟨rfl, rfl⟩
    · split
      · exact ⟨rfl, rfl⟩
      · exact ⟨rfl, rfl⟩

theorem makeDirectory_frame (s : IncrementalService) (storageId : StorageId) (path : String)
    (osOk : Bool) :
    (stateAfter s (makeDirectory s storageId path osOk)).tracker = s.tracker ∧
    (stateAfter s (makeDirectory s storageId path osOk)).mounts = s.mounts := by
  unfold makeDirectory
  split
  · exact ⟨rfl, rfl⟩
  · split
    · exact ⟨rfl, rfl⟩
    · split <;> exact ⟨rfl, rfl⟩

theorem makeFile_frame (s : IncrementalService) (storageId : StorageId) (path : String)
    (size : Int) (metadata : List (Fin 256)) (osOk : Bool) :
    (stateAfter s (makeFile s storageId path size metadata osOk)).tracker = s.tracker ∧
    (stateAfter s (makeFile s storageId path size metadata osOk)).mounts = s.mounts := by
  unfold makeFile
  split
  · exact ⟨rfl, rfl⟩
  · split
    · exact ⟨rfl, rfl⟩
    · split <;> exact ⟨rfl, rfl⟩

theorem unlink_frame (s : IncrementalService) (storageId : StorageId) (path : String)
    (osOk : Bool) :
    (stateAfter s (unlink s storageId path osOk)).tracker = s.tracker ∧
    (stateAfter s (unlink s storageId path osOk)).mounts = s.mounts := by
  unfold unlink
  split
  · exact ⟨rfl, rfl⟩
  · split
    · exact ⟨rfl, rfl⟩
    · split <;> exact ⟨rfl, rfl⟩

theorem makeBindMount_tracker (s : IncrementalService) (storageId : StorageId)
    (path target : String) (bindType : BindType) (osOk : Bool) :
    (stateAfter s (makeBindMount s storageId path target bindType osOk)).tracker = s.tracker := by
  unfold makeBindMount
  split <;> rfl

theorem deleteBindMount_tracker (s : IncrementalService) (storageId : StorageId)
    (target : String) (osOk : Bool) :
    (stateAfter s (deleteBindMount s storageId target osOk)).tracker = s.tracker := by
  unfold deleteBindMount
  split <;> rfl

theorem deleteStorage_tracker (s : IncrementalService) (storageId : StorageId)
    (unmountFails : List String) :
    (deleteStorage s storageId unmountFails).1.tracker = s.tracker := by
  unfold deleteStorage
  split
  · rfl
  · dsimp only
    split <;> rfl

theorem onSystemReady_tracker (persisted : List (StorageId × String × String × Bool)) :
    ∀ s : IncrementalService, (onSystemReady s persisted).tracker = s.tracker := by
  induction persisted with
  | nil => intro s; rfl
  | cons p rest ih =>
    obtain ⟨sid, path, target, osOk⟩ := p
    intro s
    simp only [onSystemReady]
    have h := makeBindMount_tracker s sid path target BindType.permanent osOk
    split
    · rename_i s1 heq
      rw [ih s1]
      simpa [heq, stateAfter] using h
    · exact ih s

/-- Only the fill notification changes the tracker. -/
theorem step_tracker (s : IncrementalService) (a : Action) :
    (step s a).tracker =
      match a with
      | Action.markFilled storageId fileId lo hi => s.tracker.markFilled (storageId, fileId) lo hi
      | _ => s.tracker := by
  cases a with
  | createStorage path createMode osOk => exact (createStorage_frame s path createMode osOk).1
  | createLinkedStorage path other createMode osOk =>
    exact (createLinkedStorage_frame s path other createMode osOk).1
  | makeBindMount sid path target bt osOk => exact makeBindMount_tracker s sid path target bt osOk
  | deleteBindMount sid target osOk => exact deleteBindMount_tracker s sid target osOk
  | deleteStorage sid fails => exact deleteStorage_tracker s sid fails
  | onInvalidStorage sid fails => exact deleteStorage_tracker s sid fails
  | onSystemReady persisted => exact onSystemReady_tracker persisted s
  | makeDirectory sid path osOk => exact (makeDirectory_frame s sid path osOk).1
  | makeFile sid path size md osOk => exact (makeFile_frame s sid path size md osOk).1
  | unlink sid path osOk => exact (unlink_frame s sid path osOk).1
  | markFilled sid f lo hi => rfl

/-- The intervals stored for a file are well formed and hold exactly the bytes that the
fill notifications for that file reported. -/
theorem tracker_invariant (actions : List Action) (key : FileKey) :
    LoadingStatusTracker.WellFormed ((run actions).tracker.ranges key) ∧
    ∀ x, LoadingStatusTracker.InRanges x ((run actions).tracker.ranges key) ↔
      ∃ lo hi, Action.markFilled key.1 key.2 lo hi ∈ actions ∧ lo ≤ x ∧ x < hi := by
  induction actions using List.reverseRecOn with
  | nil =>
    refine ⟨by simp [run, start, LoadingStatusTracker.ranges, LoadingStatusTracker.WellFormed], ?_⟩
    intro x
    simp [run, start, LoadingStatusTracker.ranges, LoadingStatusTracker.InRanges]
  | append_singleton actions a ih =>
    obtain ⟨hw, hin⟩ := ih
    rw [run_snoc, step_tracker]
    cases a with
    | markFilled sid f lo hi =>
      simp only [LoadingStatusTracker.ranges_markFilled]
      by_cases hk : key = (sid, f) ∧ lo < hi
      · obtain ⟨hk, hlt⟩ := hk
        subst hk
        simp only [hlt, and_self, if_true]
        refine ⟨LoadingStatusTracker.insertRange_wellFormed _ _ _ hlt hw, ?_⟩
        intro x
        rw [LoadingStatusTracker.insertRange_inRanges x _ _ _ hlt hw, hin x]
        constructor
        · rintro (h | ⟨lo2, hi2, hm, h⟩)
          · exact ⟨lo, hi, by simp, h⟩
          · exact ⟨lo2, hi2, by simp [hm], h⟩
        · rintro ⟨lo2, hi2, hm, h⟩
          rcases List.mem_append.1 hm with hm | hm
          · exact Or.inr ⟨lo2, hi2, hm, h⟩
          · simp only [List.mem_singleton, Action.markFilled.injEq] at hm
            obtain ⟨_, _, rfl, rfl⟩ := hm
            exact Or.inl h
      · rw [if_neg hk]
        refine ⟨hw, ?_⟩
        intro x
        rw [hin x]
        constructor
        · rintro ⟨lo2, hi2, hm, h⟩
          exact ⟨lo2, hi2, by simp [hm], h⟩
        · rintro ⟨lo2, hi2, hm, h⟩
          rcases List.mem_append.1 hm with hm | hm
          · exact ⟨lo2, hi2, hm, h⟩
          · simp only [List.mem_singleton, Action.markFilled.injEq] at hm
            obtain ⟨h1, h2, rfl, rfl⟩ := hm
            exfalso
            apply hk
            exact ⟨Prod.ext h1 h2, by omega⟩
    | _ =>
      refine ⟨hw, ?_⟩
      intro x
      rw [hin x]
      simp

theorem run_markFilled_registry (actions : List Action) (storageId : StorageId) (fileId : String)
    (fills : List (Int × Int)) :
    (run (actions ++ fills.map fun r => Action.markFilled storageId fileId r.1 r.2)).registry
      = (run actions).registry ∧
    (run (actions ++ fills.map fun r => Action.markFilled storageId fileId r.1 r.2)).entries
      = (run actions).entries := by
  induction fills using List.reverseRecOn with
  | nil => simp
  | append_singleton fills r ih =>
    rw [List.map_append, ← List.append_assoc, List.map_singleton, run_snoc]
    exact ih

theorem isFileRangeLoaded_of_entry (actions : List Action) (storageId : StorageId)
    (relativePath path : String) (start stop : Int)
    (hres : PathResolver.resolve (run actions).registry storageId relativePath = Except.ok path)
    (hfile : (entryAt (run actions) storageId path).isSome = true) :
    ∃ b, isFileRangeLoaded (run actions) storageId relativePath start stop = Except.ok b ∧
      (b = true ↔ ∀ x, start ≤ x → x < stop →
        ∃ lo hi, Action.markFilled storageId path lo hi ∈ actions ∧ lo ≤ x ∧ x < hi) := by
  obtain ⟨en, hen⟩ := Option.isSome_iff_exists.1 hfile
  refine ⟨(run actions).tracker.isRangeLoaded (storageId, path) start stop, ?_, ?_⟩
  · simp [isFileRangeLoaded, hres, hen]
  · obtain ⟨hw, hin⟩ := tracker_invariant actions (storageId, path)
    unfold LoadingStatusTracker.isRangeLoaded
    rw [LoadingStatusTracker.covered_iff _ _ _ hw]
    constructor
    · intro h x h1 h2
      exact (hin x).1 (h x h1 h2)
    · intro h x h1 h2
      exact (hin x).2 (h x h1 h2)

theorem isFileRangeLoaded_true_iff (actions : List Action) (storageId : StorageId)
    (relativePath : String) (start stop : Int) :
    isFileRangeLoaded (run actions) storageId relativePath start stop = Except.ok true ↔
      ∃ path, PathResolver.resolve (run actions).registry storageId relativePath
          = Except.ok path ∧
        (entryAt (run actions) storageId path).isSome = true ∧
        ∀ x, start ≤ x → x < stop →
          ∃ lo hi, Action.markFilled storageId path lo hi ∈ actions ∧ lo ≤ x ∧ x < hi := by
  constructor
  · intro h
    cases hres : PathResolver.resolve (run actions).registry storageId relativePath with
    | error e => simp [isFileRangeLoaded, hres] at h
    | ok path =>
      cases hen : entryAt (run actions) storageId path with
      | none => simp [isFileRangeLoaded, hres, hen] at h
      | some en =>
        have hfile : (entryAt (run actions) storageId path).isSome = true := by simp [hen]
        obtain ⟨b, hb, hiff⟩ :=
          isFileRangeLoaded_of_entry actions storageId relativePath path start stop hres hfile
        rw [hb] at h
        exact ⟨path, rfl, hfile, hiff.1 (by simpa using h)⟩
  · rintro ⟨path, hres, hfile, hall⟩
    obtain ⟨b, hb, hiff⟩ :=
      isFileRangeLoaded_of_entry actions storageId relativePath path start stop hres hfile
    rw [hb, hiff.2 hall]

/-- C2. For every file of a live storage and every byte range `[start, end)`,
`isFileRangeLoaded` returns a boolean, and it returns true if and only if every byte of
the range lies in the union of the ranges that the fill notifications reported for that
file so far. In particular, after the fills `[0,10)` and `[10,20)` the query `[0,20)`
reports loaded; and whatever the arguments, a range with an unfilled byte is never
reported loaded. -/
theorem isFileRangeLoaded_iff_every_byte_filled (actions : List Action)
    (storageId : StorageId) (relativePath path : String) (start stop : Int)
    (hres : PathResolver.resolve (run actions).registry storageId relativePath = Except.ok path)
    (hfile : (entryAt (run actions) storageId path).isSome = true) :
    (∃ b, isFileRangeLoaded (run actions) storageId relativePath start stop = Except.ok b ∧
      (b = true ↔ ∀ x, start ≤ x → x < stop →
        ∃ lo hi, Action.markFilled storageId path lo hi ∈ actions ∧ lo ≤ x ∧ x < hi)) ∧
    isFileRangeLoaded
      (run (actions ++ [Action.markFilled storageId path 0 10,
        Action.markFilled storageId path 10 20])) storageId relativePath 0 20
      = Except.ok true ∧
    (∀ (storageId2 : StorageId) (relativePath2 : String) (start2 stop2 : Int),
      isFileRangeLoaded (run actions) storageId2 relativePath2 start2 stop2 = Except.ok true ↔
        ∃ path2, PathResolver.resolve (run actions).registry storageId2 relativePath2
            = Except.ok path2 ∧
          (entryAt (run actions) storageId2 path2).isSome = true ∧
          ∀ x, start2 ≤ x → x < stop2 →
            ∃ lo hi, Action.markFilled storageId2 path2 lo hi ∈ actions ∧ lo ≤ x ∧ x < hi) := by
  refine ⟨isFileRangeLoaded_of_entry actions storageId relativePath path start stop hres hfile,
    ?_, fun sid2 rel2 a2 b2 => isFileRangeLoaded_true_iff actions sid2 rel2 a2 b2⟩
  have hframe := run_markFilled_registry actions storageId path [(0, 10), (10, 20)]
  simp only [List.map_cons, List.map_nil] at hframe
  obtain ⟨b, hb, hiff⟩ := isFileRangeLoaded_of_entry
    (actions ++ [Action.markFilled storageId path 0 10, Action.markFilled storageId path 10 20])
    storageId relativePath path 0 20 (by rw [hframe.1]; exact hres)
    (by unfold entryAt at hfile ⊢; rw [hframe.2]; exact hfile)
  have : b = true := by
    rw [hiff]
    intro x h1 h2
    by_cases hx : x < 10
    · exact ⟨0, 10, by simp, h1, hx⟩
    · exact ⟨10, 20, by simp, by omega, h2⟩
  rw [hb, this]

/-- C4. A successful `makeFile(storageId, path, size, metadata)` followed immediately by
`getFileMetadata(storageId, path)` returns exactly the byte sequence `metadata`. -/
theorem makeFile_then_getFileMetadata (s s1 : IncrementalService) (storageId : StorageId)
    (pathUnderStorage : String) (size : Int) (metadata : List (Fin 256)) (osOk : Bool)
    (hmake : makeFile s storageId pathUnderStorage size metadata osOk = Except.ok s1) :
    getFileMetadata s1 storageId pathUnderStorage = Except.ok metadata := by
  unfold makeFile at hmake
  split at hmake
  · simp at hmake
  · rename_i path hres
    split at hmake
    · simp at hmake
    · rename_i hnone
      split at hmake
      · simp at hmake
      · simp only [Except.ok.injEq] at hmake
        subst hmake
        unfold getFileMetadata
        simp only [hres]
        unfold entryAt at hnone ⊢
        rw [List.find?_append, hnone]
        simp

namespace BindMountTable

theorem occupied_eq_false_iff (mounts : List BindMount) (target : String) :
    occupied mounts target = false ↔ target ∉ mounts.map BindMount.targetFullPath := by
  simp [occupied]

theorem bind_ok (r : StorageRegistry) (mounts mounts1 : List BindMount) (storageId : StorageId)
    (path target : String) (bindType : BindType) (osOk : Bool)
    (h : bind r mounts storageId path target bindType osOk = Except.ok mounts1) :
    occupied mounts target = false ∧
      ∃ source, mounts1 = mounts ++ [⟨storageId, source, target, bindType⟩] := by
  unfold bind at h
  split at h
  · simp at h
  · rename_i source _
    split at h
    · simp at h
    · rename_i hocc
      split at h
      · simp at h
      · simp only [Except.ok.injEq] at h
        exact ⟨by simpa using hocc, source, h.symm⟩

theorem unbind_ok (mounts mounts1 : List BindMount) (storageId : StorageId) (target : String)
    (osOk : Bool) (h : unbind mounts storageId target osOk = Except.ok mounts1) :
    holds mounts storageId target = true ∧
      mounts1 = mounts.filter fun m =>
        decide (¬(m.storageId = storageId ∧ m.targetFullPath = target)) := by
  unfold unbind at h
  split at h
  · simp at h
  · rename_i hh
    split at h
    · simp at h
    · simp only [Except.ok.injEq] at h
      exact ⟨by simpa using hh, h.symm⟩

theorem unwind_sublist (storageId : StorageId) (fails : List String) (todo : List BindMount) :
    ∀ mounts : List BindMount, (unwind storageId fails todo mounts).1.Sublist mounts := by
  induction todo with
  | nil => intro mounts; exact List.Sublist.refl _
  | cons m todo ih =>
    intro mounts
    simp only [unwind]
    split
    · rename_i mounts1 heq
      have := (unbind_ok _ _ _ _ _ heq).2
      exact (ih mounts1).trans (this ▸ List.filter_sublist _)
    · exact ih mounts

theorem teardown_sublist (mounts : List BindMount) (storageId : StorageId)
    (fails : List String) : (teardown mounts storageId fails).1.Sublist mounts :=
  unwind_sublist _ _ _ _

end BindMountTable

theorem uniqueTargets_sublist (m1 m2 : List BindMount) (h : m1.Sublist m2)
    (hu : UniqueTargets m2) : UniqueTargets m1 :=
  List.Nodup.sublist (h.map _) hu

theorem makeBindMount_unique (s : IncrementalService) (storageId : StorageId)
    (path target : String) (bindType : BindType) (osOk : Bool) (hu : UniqueTargets s.mounts) :
    UniqueTargets (stateAfter s (makeBindMount s storageId path target bindType osOk)).mounts := by
  unfold makeBindMount
  split
  · exact hu
  · rename_i mounts heq
    obtain ⟨hfree, source, rfl⟩ := BindMountTable.bind_ok _ _ _ _ _ _ _ _ heq
    simp only [stateAfter, UniqueTargets, List.map_append, List.map_cons, List.map_nil]
    rw [List.nodup_append]
    refine ⟨hu, List.nodup_singleton _, ?_⟩
    intro t ht ht2
    simp only [List.mem_singleton] at ht2
    subst ht2
    exact (BindMountTable.occupied_eq_false_iff _ _).1 hfree ht

theorem deleteBindMount_unique (s : IncrementalService) (storageId : StorageId)
    (target : String) (osOk : Bool) (hu : UniqueTargets s.mounts) :
    UniqueTargets (stateAfter s (deleteBindMount s storageId target osOk)).mounts := by
  unfold deleteBindMount
  split
  · exact hu
  · rename_i mounts heq
    have := (BindMountTable.unbind_ok _ _ _ _ _ heq).2
    exact uniqueTargets_sublist _ _ (this ▸ List.filter_sublist _) hu

theorem deleteStorage_unique (s : IncrementalService) (storageId : StorageId)
    (fails : List String) (hu : UniqueTargets s.mounts) :
    UniqueTargets (deleteStorage s storageId fails).1.mounts := by
  unfold deleteStorage
  split
  · exact hu
  · dsimp only
    split <;> exact uniqueTargets_sublist _ _ (BindMountTable.teardown_sublist _ _ _) hu

theorem onSystemReady_unique (persisted : List (StorageId × String × String × Bool)) :
    ∀ s : IncrementalService, UniqueTargets s.mounts →
      UniqueTargets (onSystemReady s persisted).mounts := by
  induction persisted with
  | nil => intro s hu; exact hu
  | cons p rest ih =>
    obtain ⟨sid, path, target, osOk⟩ := p
    intro s hu
    simp only [onSystemReady]
    have h := makeBindMount_unique s sid path target BindType.permanent osOk hu
    split
    · rename_i s1 heq
      exact ih s1 (by simpa [heq, stateAfter] using h)
    · exact ih s hu

theorem step_unique (s : IncrementalService) (a : Action) (hu : UniqueTargets s.mounts) :
    UniqueTargets (step s a).mounts := by
  cases a with
  | createStorage path createMode osOk =>
    exact (createStorage_frame s path createMode osOk).2 ▸ hu
  | createLinkedStorage path other createMode osOk =>
    exact (createLinkedStorage_frame s path other createMode osOk).2 ▸ hu
  | makeBindMount sid path target bt osOk => exact makeBindMount_unique s sid path target bt osOk hu
  | deleteBindMount sid target osOk => exact deleteBindMount_unique s sid target osOk hu
  | deleteStorage sid fails => exact deleteStorage_unique s sid fails hu
  | onInvalidStorage sid fails => exact deleteStorage_unique s sid fails hu
  | onSystemReady persisted => exact onSystemReady_unique persisted s hu
  | makeDirectory sid path osOk => exact (makeDirectory_frame s sid path osOk).2 ▸ hu
  | makeFile sid path size md osOk => exact (makeFile_frame s sid path size md osOk).2 ▸ hu
  | unlink sid path osOk => exact (unlink_frame s sid path osOk).2 ▸ hu
  | markFilled sid f lo hi => exact hu

theorem run_unique (actions : List Action) : UniqueTargets (run actions).mounts := by
  induction actions using List.reverseRecOn with
  | nil => simp [run, start, UniqueTargets]
  | append_singleton actions a ih =>
    rw [run_snoc]
    exact step_unique _ a ih

theorem makeBindMount_occupied (s : IncrementalService) (storageId : StorageId)
    (path target : String) (bindType : BindType) (osOk : Bool)
    (hocc : BindMountTable.occupied s.mounts target = true) :
    (∃ e, makeBindMount s storageId path target bindType osOk = Except.error e) ∧
    (∀ source, PathResolver.resolve s.registry storageId path = Except.ok source →
      makeBindMount s storageId path target bindType osOk = Except.error Error.AlreadyBound) := by
  unfold makeBindMount BindMountTable.bind
  cases hres : PathResolver.resolve s.registry storageId path with
  | error e => exact ⟨⟨e, rfl⟩, fun source h => by simp at h⟩
  | ok source =>
    simp [hocc]

theorem deleteBindMount_frees (s s1 : IncrementalService) (storageId : StorageId)
    (target : String) (osOk : Bool) (hu : UniqueTargets s.mounts)
    (h : deleteBindMount s storageId target osOk = Except.ok s1) :
    BindMountTable.occupied s1.mounts target = false ∧ s1.registry = s.registry := by
  unfold deleteBindMount at h
  split at h
  · simp at h
  · rename_i mounts heq
    simp only [Except.ok.injEq] at h
    subst h
    obtain ⟨hholds, rfl⟩ := BindMountTable.unbind_ok _ _ _ _ _ heq
    refine ⟨?_, rfl⟩
    simp only [BindMountTable.holds, List.any_eq_true, decide_eq_true_eq] at hholds
    obtain ⟨m0, hm0, hsid, htgt⟩ := hholds
    simp only [BindMountTable.occupied, List.any_eq_false, List.mem_filter, decide_eq_true_eq,
      and_imp]
    intro m hm hne htm
    have heq2 : m = m0 :=
      List.inj_on_of_nodup_map hu hm hm0 (htm.trans htgt.symm)
    exact hne ⟨heq2 ▸ hsid, htm⟩

/-- Witness for C2: the file `a.bin` of the sample run and the range `[0, 10)`. -/
theorem isFileRangeLoaded_iff_every_byte_filled_witness :
    PathResolver.resolve (run sampleFileRun).registry 1 "a.bin"
      = Except.ok "/data/incremental/A/a.bin" ∧
    (entryAt (run sampleFileRun) 1 "/data/incremental/A/a.bin").isSome = true ∧
    isFileRangeLoaded
      (run (sampleFileRun ++ [Action.markFilled 1 "/data/incremental/A/a.bin" 0 10,
        Action.markFilled 1 "/data/incremental/A/a.bin" 10 20])) 1 "a.bin" 0 20
      = Except.ok true :=
  ⟨rfl, rfl,
    (isFileRangeLoaded_iff_every_byte_filled sampleFileRun 1 "a.bin"
      "/data/incremental/A/a.bin" 0 10 rfl rfl).2.1⟩

/-- Witness for C4: a file made in the storage of the sample run. -/
theorem makeFile_then_getFileMetadata_witness :
    makeFile (run sampleMountRun) 1 "assets/a.bin" 100 [7, 8, 9] true
      = Except.ok (run (sampleMountRun ++ [Action.makeFile 1 "assets/a.bin" 100 [7, 8, 9] true])) ∧
    getFileMetadata (run (sampleMountRun ++ [Action.makeFile 1 "assets/a.bin" 100 [7, 8, 9] true]))
      1 "assets/a.bin" = Except.ok [7, 8, 9] :=
  ⟨rfl, makeFile_then_getFileMetadata (run sampleMountRun) _ 1 "assets/a.bin" 100 [7, 8, 9] true
    rfl⟩

/-- C3. In every reachable state of the service no two live bind mounts share a target
path. A `makeBindMount` to a target already occupied by a live mount fails and records
nothing, and for a source that resolves the failure is `AlreadyBound`. After a successful
`deleteBindMount` on that target the target is free, and a new `makeBindMount` to the
same target, from a source that resolves and with a working mount operation, succeeds
and records the mount. -/
theorem bind_mount_targets_unique (actions : List Action) :
    ((run actions).mounts.map BindMount.targetFullPath).Nodup ∧
    (∀ (storageId : StorageId) (path target : String) (bindType : BindType) (osOk : Bool),
      BindMountTable.occupied (run actions).mounts target = true →
        (∃ e, makeBindMount (run actions) storageId path target bindType osOk
          = Except.error e) ∧
        step (run actions) (Action.makeBindMount storageId path target bindType osOk)
          = run actions ∧
        (∀ source, PathResolver.resolve (run actions).registry storageId path
            = Except.ok source →
          makeBindMount (run actions) storageId path target bindType osOk
            = Except.error Error.AlreadyBound)) ∧
    (∀ (storageId : StorageId) (target : String) (osOk : Bool) (s1 : IncrementalService),
      deleteBindMount (run actions) storageId target osOk = Except.ok s1 →
        BindMountTable.occupied s1.mounts target = false ∧
        ∀ (storageId2 : StorageId) (path2 : String) (bindType2 : BindType) (source : String),
          PathResolver.resolve s1.registry storageId2 path2 = Except.ok source →
          makeBindMount s1 storageId2 path2 target bindType2 true =
            Except.ok { s1 with
              mounts := s1.mounts ++ [⟨storageId2, source, target, bindType2⟩] }) := by
  refine ⟨run_unique actions, ?_, ?_⟩
  · intro storageId path target bindType osOk hocc
    obtain ⟨⟨e, he⟩, hab⟩ :=
      makeBindMount_occupied (run actions) storageId path target bindType osOk hocc
    refine ⟨⟨e, he⟩, ?_, hab⟩
    simp [step, he, stateAfter]
  · intro storageId target osOk s1 hdel
    obtain ⟨hfree, _⟩ :=
      deleteBindMount_frees (run actions) s1 storageId target osOk (run_unique actions) hdel
    refine ⟨hfree, ?_⟩
    intro storageId2 path2 bindType2 source hres
    simp [makeBindMount, BindMountTable.bind, hres, hfree]

/-- Witness for C3: in the sample run `/mnt/x` is occupied and a second bind fails with
`AlreadyBound`; after the mount is deleted the target is free and the same bind succeeds. -/
theorem bind_mount_targets_unique_witness :
    BindMountTable.occupied (run sampleMountRun).mounts "/mnt/x" = true ∧
    makeBindMount (run sampleMountRun) 1 "" "/mnt/x" BindType.temporary true
      = Except.error Error.AlreadyBound ∧
    BindMountTable.occupied
      (run (sampleMountRun ++ [Action.deleteBindMount 1 "/mnt/x" true])).mounts "/mnt/x"
      = false ∧
    makeBindMount (run (sampleMountRun ++ [Action.deleteBindMount 1 "/mnt/x" true]))
        1 "" "/mnt/x" BindType.temporary true =
      Except.ok { run (sampleMountRun ++ [Action.deleteBindMount 1 "/mnt/x" true]) with
        mounts := (run (sampleMountRun ++ [Action.deleteBindMount 1 "/mnt/x" true])).mounts ++
          [⟨1, "/data/incremental/A", "/mnt/x", BindType.temporary⟩] } :=
  ⟨by decide,
    ((bind_mount_targets_unique sampleMountRun).2.1 1 "" "/mnt/x" BindType.temporary true
      (by decide)).2.2 "/data/incremental/A" rfl,
    ((bind_mount_targets_unique sampleMountRun).2.2 1 "/mnt/x" true
      (run (sampleMountRun ++ [Action.deleteBindMount 1 "/mnt/x" true])) rfl).1,
    ((bind_mount_targets_unique sampleMountRun).2.2 1 "/mnt/x" true
      (run (sampleMountRun ++ [Action.deleteBindMount 1 "/mnt/x" true])) rfl).2
      1 "" BindType.temporary "/data/incremental/A" rfl⟩

end android.os.incremental
